import Mathlib

/-!
Verification of the nested/variable-length container column (`MapColumn`)
of the StarRocks vectorized backend (`column/map_column.cpp`).

The column is embedded shallowly:

* the offset buffer (`UInt32Column`) becomes a `List Nat`;
* each child column (`_keys`, `_values`) is a nullable column over an
  element type and becomes a `List (Option _)` — `none` is a null element;
* every `MapColumn` method of the source file becomes a pure function on
  the record below.  In-place mutation becomes explicit state passing.

Child-column operations (`Column::append`, `Column::filter_range`,
`Column::update_rows`, serialization of a single element, ...) are not part
of the excerpt; they are modelled from the spec's child-column capability
contract (spec section 6) and, where a claim depends on them, the claim's
theorem is parametric in the child operation together with the contract it
must satisfy.
-/

namespace StarRocksMap

/-- MapColumn data: keys and values are nullable child columns holding all
elements of all rows concatenated, offsets is the row-boundary buffer
(`UInt32Column`).  Machine `uint32` offsets are modelled as `Nat`; none of
the verified operations overflow under their preconditions. -/
structure MapColumn (α β : Type) where
  keys : List (Option α)
  values : List (Option β)
  offsets : List Nat
deriving Repr, DecidableEq

namespace MapColumn

variable {α β : Type}

/-- Source `MapColumn::size`: `_offsets->size() - 1`. -/
def size (c : MapColumn α β) : Nat := c.offsets.length - 1

/-- Access `_offsets->get_data()[i]`. -/
def off (c : MapColumn α β) (i : Nat) : Nat := c.offsets.getD i 0

/-- Access `_offsets->get_data().back()`. -/
def backOff (c : MapColumn α β) : Nat := c.offsets.getLastD 0

/-- Element count of row `i`: `offsets[i+1] - offsets[i]` (used throughout
the source). -/
def rowSize (offs : List Nat) (i : Nat) : Nat := offs.getD (i + 1) 0 - offs.getD i 0

/-- Modelled from the spec: a child column's bulk range copy
`Column::append(src, offset, count)` appends the `count` elements of `src`
starting at element `offset`. -/
def childAppendRange (self src : List (Option α)) (offset count : Nat) : List (Option α) :=
  self ++ (src.drop offset).take count

/-- Modelled from the spec: a child column's `resize(n)` pads (with the
default, which for a nullable child is null) or truncates to exactly `n`
elements. -/
def childResize (l : List (Option α)) (n : Nat) : List (Option α) :=
  l.take n ++ List.replicate (n - l.length) none

/-- Source invariant of `MapColumn::check_or_die` together with the
constructor guarantee (`offsets` starts with the `0` sentinel):
the offset buffer is non-empty, starts at `0`, is non-decreasing, and its
last entry equals the size of both children. -/
def WellFormed (c : MapColumn α β) : Prop :=
  c.offsets ≠ [] ∧
  c.offsets.getD 0 0 = 0 ∧
  (∀ i < c.offsets.length - 1, c.offsets.getD i 0 ≤ c.offsets.getD (i + 1) 0) ∧
  c.backOff = c.keys.length ∧
  c.backOff = c.values.length

instance instDecWellFormed (c : MapColumn α β) : Decidable (WellFormed c) :=
  inferInstanceAs (Decidable (c.offsets ≠ [] ∧ c.offsets.getD 0 0 = 0 ∧
    (∀ i < c.offsets.length - 1, c.offsets.getD i 0 ≤ c.offsets.getD (i + 1) 0) ∧
    c.backOff = c.keys.length ∧ c.backOff = c.values.length))

/-- Source `MapColumn::append_datum`: appends one associative value
(iterated per key-value pair in the C++; the net effect on each child is
appending the pair components in order, and one offset entry
`back + map_size`). -/
def append_datum (c : MapColumn α β) (m : List (Option α × Option β)) : MapColumn α β :=
  { keys := c.keys ++ m.map Prod.fst
    values := c.values ++ m.map Prod.snd
    offsets := c.offsets ++ [c.offsets.getLastD 0 + m.length] }

/-- Offset-extension loop of source `MapColumn::append`:
`for (i = offset; i < offset + count; i++) _offsets->append(back + l_i)`. -/
def appendOffsetsLoop (dst srcOffs : List Nat) (i : Nat) : Nat → List Nat
  | 0 => dst
  | Nat.succ k =>
      appendOffsetsLoop (dst ++ [dst.getLastD 0 + rowSize srcOffs i]) srcOffs (i + 1) k

/-- Source `MapColumn::append(src, offset, count)`: bulk-copies the
contiguous element range of `count` source rows into both children, then
extends the offsets row by row. -/
def append (c src : MapColumn α β) (offset count : Nat) : MapColumn α β :=
  let src_offset := src.offsets.getD offset 0
  let src_count := src.offsets.getD (offset + count) 0 - src_offset
  { keys := childAppendRange c.keys src.keys src_offset src_count
    values := childAppendRange c.values src.values src_offset src_count
    offsets := appendOffsetsLoop c.offsets src.offsets offset count }

/-- Source `MapColumn::append_selective`: `size` single-row appends at the
gathered indexes. -/
def append_selective (c src : MapColumn α β) (indexes : List Nat) (start sz : Nat) :
    MapColumn α β :=
  (List.range sz).foldl (fun acc i => append acc src (indexes.getD (start + i) 0) 1) c

/-- Source `MapColumn::append_value_multiple_times(src, index, size)`:
`size` single-row appends of the same row. -/
def append_value_multiple_times (c src : MapColumn α β) (index sz : Nat) : MapColumn α β :=
  (List.range sz).foldl (fun acc _ => append acc src index 1) c

/-- Offset-append loop of source `MapColumn::append_nulls`:
`for (i = 0; i < count; i++) _offsets->append(back)`. -/
def appendBackLoop (offs : List Nat) : Nat → List Nat
  | 0 => offs
  | Nat.succ k => appendBackLoop (offs ++ [offs.getLastD 0]) k

/-- Source `MapColumn::append_nulls(count)`: appends `count` copies of the
current back offset and returns `true`. -/
def append_nulls (c : MapColumn α β) (count : Nat) : MapColumn α β × Bool :=
  ({ c with offsets := appendBackLoop c.offsets count }, true)

/-- Source `MapColumn::append_default(count)`: appends the saved back
offset `count` times (`_offsets->append_value_multiple_times(&offset, count)`). -/
def append_default (c : MapColumn α β) (count : Nat) : MapColumn α β :=
  { c with offsets := c.offsets ++ List.replicate count (c.offsets.getLastD 0) }

/-- Source `MapColumn::resize(n)`: resizes offsets to `n + 1` entries
padding with the old back value, then resizes both children to the new
back value. -/
def resize (c : MapColumn α β) (n : Nat) : MapColumn α β :=
  let offs := c.offsets.take (n + 1) ++
      List.replicate ((n + 1) - c.offsets.length) (c.offsets.getLastD 0)
  let array_size := offs.getLastD 0
  { keys := childResize c.keys array_size
    values := childResize c.values array_size
    offsets := offs }

/-- Source `MapColumn::set_null`: a map column carries no container-level
null marker, the call always fails. -/
def set_null (_c : MapColumn α β) (_idx : Nat) : Bool := false

/-- Source `MapColumn::compare_at`: the container provides no ordering,
the result is the constant `-1`. -/
def compare_at (_c : MapColumn α β) (_left _right : Nat) (_rightColumn : MapColumn α β)
    (_nanDirectionHint : Int) : Int := -1

/-- Logical contents of row `i`: the key/value pairs of the element range
delimited by `offsets[i]` and `offsets[i+1]`. -/
def rowOf (c : MapColumn α β) (i : Nat) : List (Option α × Option β) :=
  ((c.keys.drop (c.offsets.getD i 0)).take (rowSize c.offsets i)).zip
    ((c.values.drop (c.offsets.getD i 0)).take (rowSize c.offsets i))

/-- Logical contents of the whole column, row by row. -/
def rows (c : MapColumn α β) : List (List (Option α × Option β)) :=
  (List.range c.size).map (rowOf c)

/-- Memset on the element filter in source filter_range:
`memset(element_filter.data() + offsets[i], 1, array_size)`. -/
def markRange (ef : List Bool) (s len : Nat) : List Bool :=
  ef.mapIdx (fun i b => if s ≤ i ∧ i < s + len then true else b)

/-- Scalar row loop of source `MapColumn::filter_range` (the only path
without AVX2; the AVX2 batch path is a documented equivalent of this loop).
State: mutated offsets, element filter, `result_offset`; iterates `i` over
`[fr, to)` recursing on the remaining step count. -/
def frLoop (filter : List Bool) :
    Nat → Nat → List Nat × List Bool × Nat → List Nat × List Bool × Nat
  | _, 0, st => st
  | i, Nat.succ steps, (offs, ef, ro) =>
    if filter.getD i false then
      let array_size := offs.getD (i + 1) 0 - offs.getD i 0
      let ef2 := markRange ef (offs.getD i 0) array_size
      let offs2 := offs.set (ro + 1) (offs.getD ro 0 + array_size)
      frLoop filter (i + 1) steps (offs2, ef2, ro + 1)
    else
      frLoop filter (i + 1) steps (offs, ef, ro)

/-- Modelled from the spec: a child column's `filter_range(f, s, e)` keeps
elements before `s` untouched and compacts `[s, e)` keeping the elements
whose filter byte is set (the column is `e` elements long here). -/
def childFilterRange {γ : Type} (l : List (Option γ)) (ef : List Bool) (s e : Nat) :
    List (Option γ) :=
  l.take s ++ (List.range (e - s)).filterMap
    (fun j => if ef.getD (s + j) false then l[s + j]? else none)

/-- Source `MapColumn::filter_range(filter, fr, to)`: runs the row loop,
compacts both children by the derived element filter, then resizes to the
final kept-row count, which is also returned. -/
def filter_range (c : MapColumn α β) (filter : List Bool) (fr stop : Nat) :
    MapColumn α β × Nat :=
  let elements_start := c.offsets.getD fr 0
  let elements_end := c.offsets.getD stop 0
  let st := frLoop filter fr (stop - fr) (c.offsets, List.replicate elements_end false, fr)
  let c1 : MapColumn α β :=
    { keys := childFilterRange c.keys st.2.1 elements_start elements_end
      values := childFilterRange c.values st.2.1 elements_start elements_end
      offsets := st.1 }
  (resize c1 st.2.2, st.2.2)

/-- Source loop computing `need_resize` in `MapColumn::update_rows`: some
replacement row's cardinality differs from the row it replaces. -/
def needResize (c src : MapColumn α β) (indexes : List Nat) : Bool :=
  (List.range src.size).any
    (fun i => rowSize c.offsets (indexes.getD i 0) != rowSize src.offsets i)

/-- Source `element_idxes` buffer of the fast path of
`MapColumn::update_rows`: for every replacement row, the absolute element
indices it occupies in this column. -/
def elementIdxes (c src : MapColumn α β) (indexes : List Nat) : List Nat :=
  (List.range src.size).flatMap
    (fun i => (List.range (rowSize src.offsets i)).map
      (fun j => c.offsets.getD (indexes.getD i 0) 0 + j))

/-- Modelled from the spec: a child column's `update_rows(src, idxs)`
replaces, for each `i` below the source size, the element at `idxs[i]`
with source element `i`. -/
def childUpdateRows {γ : Type} (l src : List (Option γ)) (idxs : List Nat) :
    List (Option γ) :=
  (List.range src.length).foldl
    (fun acc i => acc.set (idxs.getD i 0) (src.getD i none)) l

/-- Source `MapColumn::clone_empty`: empty children and an offset buffer
auto-initialized by the constructor to the single sentinel `0`. -/
def clone_empty (_c : MapColumn α β) : MapColumn α β :=
  { keys := [], values := [], offsets := [0] }

/-- Source `MapColumn::update_rows(src, indexes)`: the in-place fast path
when no cardinality changes, otherwise the rebuild path (interleaving bulk
appends of unchanged ranges with single replaced rows, then the storage
swap).  Child errors cannot occur in the list model, so the `Status`
result is dropped. -/
def update_rows (c src : MapColumn α β) (indexes : List Nat) : MapColumn α β :=
  if needResize c src indexes = false then
    { c with
        keys := childUpdateRows c.keys src.keys (elementIdxes c src indexes)
        values := childUpdateRows c.values src.values (elementIdxes c src indexes) }
  else
    let st := (List.range src.size).foldl
      (fun (st : MapColumn α β × Nat) i =>
        let cnt := indexes.getD i 0 - st.2
        let m1 := append st.1 c st.2 cnt
        let m2 := append m1 src i 1
        (m2, indexes.getD i 0 + 1))
      (clone_empty c, 0)
    let remain := c.size - st.2
    if 0 < remain then append st.1 c st.2 remain else st.1

/-- Little-endian byte image of the `u32` cardinality written by
`memcpy(pos, &map_size, sizeof(map_size))`. -/
def u32le (n : Nat) : List Nat :=
  [n % 256, n / 256 % 256, n / 65536 % 256, n / 16777216 % 256]

/-- Inverse of `u32le`: read four bytes from the stream (the C++ `memcpy`
out of an exhausted buffer is undefined behaviour, hence `none`). -/
def decodeU32 : List Nat → Option (Nat × List Nat)
  | b0 :: b1 :: b2 :: b3 :: rest =>
      some (b0 + 256 * b1 + 65536 * b2 + 16777216 * b3, rest)
  | _ => none

/-- Source `MapColumn::serialize(idx, pos)`: writes the `u32` cardinality,
then each key and value of the row in storage order, accumulating
`ser_size`; the result is the byte stream written together with the
returned `ser_size`.  The child serializers are parameters (each returns
its bytes and its reported byte count), per the spec's self-describing
child contract. -/
def serialize (encK : Option α → List Nat × Nat) (encV : Option β → List Nat × Nat)
    (c : MapColumn α β) (idx : Nat) : List Nat × Nat :=
  let offset := c.offsets.getD idx 0
  let map_size := rowSize c.offsets idx
  (List.range map_size).foldl
    (fun acc i =>
      let kb := encK (c.keys.getD (offset + i) none)
      let vb := encV (c.values.getD (offset + i) none)
      (acc.1 ++ kb.1 ++ vb.1, acc.2 + kb.2 + vb.2))
    (u32le map_size, 4)

/-- Source `MapColumn::serialize_size(idx)`: four bytes for the cardinality
plus each element's reported key and value sizes. -/
def serialize_size (szK : Option α → Nat) (szV : Option β → Nat)
    (c : MapColumn α β) (idx : Nat) : Nat :=
  let offset := c.offsets.getD idx 0
  let map_size := rowSize c.offsets idx
  (List.range map_size).foldl
    (fun acc i =>
      acc + szK (c.keys.getD (offset + i) none) + szV (c.values.getD (offset + i) none))
    4

/-- Element loop of source `MapColumn::deserialize_and_append`: `map_size`
times, deserialize one key and one value into the children, advancing the
position. -/
def deserLoop (decK : List Nat → Option (Option α × List Nat))
    (decV : List Nat → Option (Option β × List Nat)) :
    Nat → MapColumn α β → List Nat → Option (MapColumn α β × List Nat)
  | 0, c, pos => some (c, pos)
  | Nat.succ k, c, pos =>
    match decK pos with
    | none => none
    | some (e1, pos1) =>
      match decV pos1 with
      | none => none
      | some (e2, pos2) =>
        deserLoop decK decV k
          { c with keys := c.keys ++ [e1], values := c.values ++ [e2] } pos2

/-- Source `MapColumn::deserialize_and_append(pos)`: reads the `u32`
cardinality, extends the offsets by `back + map_size`, then deserializes
that many key/value pairs into the children; returns the new column and
the position one past the consumed bytes. -/
def deserialize_and_append (decK : List Nat → Option (Option α × List Nat))
    (decV : List Nat → Option (Option β × List Nat))
    (c : MapColumn α β) (pos : List Nat) : Option (MapColumn α β × List Nat) :=
  match decodeU32 pos with
  | none => none
  | some (map_size, pos1) =>
    deserLoop decK decV map_size
      { c with offsets := c.offsets ++ [c.offsets.getLastD 0 + map_size] } pos1

/-- Modelled from the spec: a child column's `byte_size(from, size)`
accounts the bytes of the `size` elements starting at element `from`,
each element's footprint given by `esz`. -/
def childByteSize {γ : Type} (esz : Option γ → Nat) (l : List (Option γ))
    (start count : Nat) : Nat :=
  (((l.drop start).take count).map esz).sum

/-- Source range overload `MapColumn::byte_size(from, size)`: children are
asked for the element range starting at `offsets[from]` of length
`offsets[from+size] - offsets[from]`; the offsets column's base-class
accounting is the parameter `offAcct`. -/
def byte_size_range (esK : Option α → Nat) (esV : Option β → Nat)
    (offAcct : Nat → Nat → Nat) (c : MapColumn α β) (start count : Nat) : Nat :=
  childByteSize esK c.keys (c.offsets.getD start 0)
      (c.offsets.getD (start + count) 0 - c.offsets.getD start 0) +
  childByteSize esV c.values (c.offsets.getD start 0)
      (c.offsets.getD (start + count) 0 - c.offsets.getD start 0) +
  offAcct start count

/-- Source single-row overload `MapColumn::byte_size(idx)`: the second
argument passed to each child is `offsets[idx + 1]` (not the element
count), and the offset entry itself is accounted as
`sizeof(offsets[idx]) = 4`. -/
def byte_size_one (esK : Option α → Nat) (esV : Option β → Nat)
    (c : MapColumn α β) (idx : Nat) : Nat :=
  childByteSize esK c.keys (c.offsets.getD idx 0) (c.offsets.getD (idx + 1) 0) +
  childByteSize esV c.values (c.offsets.getD idx 0) (c.offsets.getD (idx + 1) 0) + 4

/-- Behaviour of `res[key] = value` on the C++ `DatumMap`: replace the
binding in place if the key is present, insert otherwise. -/
def upsert [DecidableEq α] : List (α × Option β) → α → Option β → List (α × Option β)
  | [], k, v => [(k, v)]
  | (k', v') :: rest, k, v =>
      if k' = k then (k, v) :: rest else (k', v') :: upsert rest k v

/-- Source `MapColumn::get(idx)`: walks the element range of the row,
skipping pairs whose key is null at the storage level, and upserting the
others into the materialized associative value. -/
def get [DecidableEq α] (c : MapColumn α β) (idx : Nat) : List (α × Option β) :=
  let offset := c.offsets.getD idx 0
  let map_size := rowSize c.offsets idx
  (List.range map_size).foldl
    (fun res i =>
      match c.keys.getD (offset + i) none with
      | none => res
      | some k => upsert res k (c.values.getD (offset + i) none))
    []

/-- One step of the materialization loop of `MapColumn::get`: a pair with
a null key is skipped, any other pair is upserted. -/
def mapStep [DecidableEq α] (res : List (α × Option β)) (p : Option α × Option β) :
    List (α × Option β) :=
  match p.1 with
  | none => res
  | some k => upsert res k p.2

/-- Source `MapColumn::upgrade_if_overflow`, with `Column::MAX_CAPACITY_LIMIT`
(declared outside the excerpt) as the parameter `limit` and the child
upgrades (`upgrade_helper_func`, also outside the excerpt) as parameters.
Modelled from the spec: a child upgrade either fails or yields the
possibly-promoted child. The second component is the state of the column
after the call — the capacity check fires before any child is touched,
and a failed child upgrade installs nothing. -/
def upgrade_if_overflow (limit : Nat)
    (upK : List (Option α) → Except String (List (Option α)))
    (upV : List (Option β) → Except String (List (Option β)))
    (c : MapColumn α β) : Except String (MapColumn α β) × MapColumn α β :=
  if limit < c.offsets.length then
    (Except.error "Size of MapColumn exceed the limit", c)
  else
    match upK c.keys with
    | Except.error e => (Except.error e, c)
    | Except.ok ks =>
      match upV c.values with
      | Except.error e => (Except.error e, { c with keys := ks })
      | Except.ok vs =>
        (Except.ok { c with keys := ks, values := vs },
         { c with keys := ks, values := vs })

end MapColumn

open MapColumn in
/-- Mutating operations of the invariant claim, with their arguments. -/
inductive MapOp (α β : Type) where
  | append (src : MapColumn α β) (offset count : Nat)
  | append_datum (m : List (Option α × Option β))
  | append_nulls (count : Nat)
  | append_default (count : Nat)
  | resize (n : Nat)
  | filter_range (filter : List Bool) (fr stop : Nat)
  | update_rows (src : MapColumn α β) (indexes : List Nat)

namespace MapColumn

variable {α β : Type}

/-- Effect of one mutating operation. -/
def applyOp (c : MapColumn α β) : MapOp α β → MapColumn α β
  | MapOp.append src offset count => append c src offset count
  | MapOp.append_datum m => append_datum c m
  | MapOp.append_nulls count => (append_nulls c count).1
  | MapOp.append_default count => append_default c count
  | MapOp.resize n => resize c n
  | MapOp.filter_range f fr stop => (filter_range c f fr stop).1
  | MapOp.update_rows src indexes => update_rows c src indexes

/-- Caller preconditions of each operation (the source `DCHECK`s plus the
well-formedness of foreign source columns and the sortedness contract of
`update_rows`). -/
def opPre (c : MapColumn α β) : MapOp α β → Prop
  | MapOp.append src offset count => WellFormed src ∧ offset + count ≤ src.size
  | MapOp.append_datum _ => True
  | MapOp.append_nulls _ => True
  | MapOp.append_default _ => True
  | MapOp.resize _ => True
  | MapOp.filter_range _ fr stop => fr ≤ stop ∧ stop = c.size
  | MapOp.update_rows src indexes =>
      WellFormed src ∧
      (∀ i2 < src.size, ∀ i1 < i2, indexes.getD i1 0 < indexes.getD i2 0) ∧
      (∀ i < src.size, indexes.getD i 0 < c.size)

/-- Apply a sequence of mutating operations in order. -/
def applySeq (c : MapColumn α β) : List (MapOp α β) → MapColumn α β
  | [] => c
  | op :: rest => applySeq (applyOp c op) rest

/-- Every operation of the sequence meets its precondition in the state
it is applied to. -/
def validSeq (c : MapColumn α β) : List (MapOp α β) → Prop
  | [] => True
  | op :: rest => opPre c op ∧ validSeq (applyOp c op) rest

instance decOpPre (c : MapColumn α β) : (op : MapOp α β) → Decidable (opPre c op)
  | MapOp.append src offset count =>
      inferInstanceAs (Decidable (WellFormed src ∧ offset + count ≤ src.size))
  | MapOp.append_datum _ => inferInstanceAs (Decidable True)
  | MapOp.append_nulls _ => inferInstanceAs (Decidable True)
  | MapOp.append_default _ => inferInstanceAs (Decidable True)
  | MapOp.resize _ => inferInstanceAs (Decidable True)
  | MapOp.filter_range _ fr stop =>
      inferInstanceAs (Decidable (fr ≤ stop ∧ stop = c.size))
  | MapOp.update_rows src indexes =>
      inferInstanceAs (Decidable (WellFormed src ∧
        (∀ i2 < src.size, ∀ i1 < i2,
          indexes.getD i1 0 < indexes.getD i2 0) ∧
        (∀ i < src.size, indexes.getD i 0 < c.size)))

instance decValidSeq : (c : MapColumn α β) → (ops : List (MapOp α β)) →
    Decidable (validSeq c ops)
  | _, [] => Decidable.isTrue trivial
  | c, op :: rest =>
    @instDecidableAnd _ _ (decOpPre c op) (decValidSeq (applyOp c op) rest)

/-- Rows of the contiguous source range `[offset, offset + count)`. -/
def sliceRows (c : MapColumn α β) (offset count : Nat) :
    List (List (Option α × Option β)) :=
  (List.range count).map (fun i => rowOf c (offset + i))

/-- Row list after replacing, for each `i` below the source size, the row
at `indexes[i]` by source row `i` (the specified outcome of
`update_rows`). -/
def replacedRows (c src : MapColumn α β) (indexes : List Nat) :
    List (List (Option α × Option β)) :=
  (List.range c.size).map (fun j =>
    match (List.range src.size).find? (fun i => indexes.getD i 0 = j) with
    | some i => rowOf src i
    | none => rowOf c j)

/-- Concrete self-describing child codec used by witnesses: a null element
is the single byte 0, a value is the byte 1 followed by one byte-token. -/
def natEnc (e : Option Nat) : List Nat × Nat :=
  match e with
  | none => ([0], 1)
  | some a => ([1, a], 2)

/-- Decoder matching `natEnc`. -/
def natDec : List Nat → Option (Option Nat × List Nat)
  | 0 :: rest => some (none, rest)
  | 1 :: a :: rest => some (some a, rest)
  | _ => none

/-- Size function matching `natEnc`. -/
def natEncSize (e : Option Nat) : Nat := (natEnc e).1.length

/-- Absolute indices of the rows of `[fr, i)` kept by the filter. -/
def keptList (f : List Bool) (fr i : Nat) : List Nat :=
  (List.range' fr (i - fr)).filter (fun j => f.getD j false)

/-- The untouched prefix of rows `[0, fr)` of a column, as a column. -/
def takeRows (c : MapColumn α β) (fr : Nat) : MapColumn α β :=
  { keys := c.keys.take (c.offsets.getD fr 0)
    values := c.values.take (c.offsets.getD fr 0)
    offsets := c.offsets.take (fr + 1) }

/-- Append the listed source rows one by one (single-row bulk appends). -/
def appendRowsList (base src : MapColumn α β) (js : List Nat) : MapColumn α β :=
  js.foldl (fun acc j => append acc src j 1) base

/-- Loop invariant of the scalar row loop of filter_range, at row cursor
`i` with state `st = (offsets, element filter, result_offset)`: the
result offset counts the kept rows so far, offsets are compacted below it
and untouched elsewhere, and the element filter marks exactly the element
ranges of the kept rows. -/
def frInv (f : List Bool) (O : List Nat) (fr stop i : Nat)
    (st : List Nat × List Bool × Nat) : Prop :=
  st.2.2 = fr + (keptList f fr i).length ∧
  st.1.length = O.length ∧
  (∀ x, x ≤ fr → st.1.getD x 0 = O.getD x 0) ∧
  (∀ m, 1 ≤ m → m ≤ (keptList f fr i).length →
    st.1.getD (fr + m) 0 =
      O.getD fr 0 + (((keptList f fr i).take m).map (rowSize O)).sum) ∧
  (∀ x, st.2.2 < x → st.1.getD x 0 = O.getD x 0) ∧
  st.2.1.length = O.getD stop 0 ∧
  (∀ x, st.2.1.getD x false = true ↔
    ∃ j ∈ keptList f fr i, O.getD j 0 ≤ x ∧ x < O.getD (j + 1) 0)

/-- One iteration of the rebuild loop of `update_rows`: append the
unchanged rows before the next replaced index, then the replacement row,
and advance `idx_begin` past the replaced row. -/
def urStep (c src : MapColumn α β) (indexes : List Nat)
    (st : MapColumn α β × Nat) (i : Nat) : MapColumn α β × Nat :=
  let cnt := indexes.getD i 0 - st.2
  let m1 := append st.1 c st.2 cnt
  let m2 := append m1 src i 1
  (m2, indexes.getD i 0 + 1)

/-- State of the rebuild loop of `update_rows` after `t` iterations. -/
def urFold (c src : MapColumn α β) (indexes : List Nat) (t : Nat) :
    MapColumn α β × Nat :=
  (List.range t).foldl (urStep c src indexes) (clone_empty c, 0)

/-- The row `update_rows` is specified to leave at position `j`. -/
def replRow (c src : MapColumn α β) (indexes : List Nat) (j : Nat) :
    List (Option α × Option β) :=
  match (List.range src.size).find? (fun i => indexes.getD i 0 = j) with
  | some i => rowOf src i
  | none => rowOf c j


end MapColumn

namespace MapColumn

variable {α β : Type}

lemma getLastD_eq_getD {γ : Type} (l : List γ) (d : γ) (_h : l ≠ []) :
    l.getLastD d = l.getD (l.length - 1) d := by
  rw [List.getLastD_eq_getLast?, List.getLast?_eq_getElem?, List.getD_eq_getElem?_getD]

lemma slice_append {γ : Type} (a b : List γ) (s n : Nat) (h : s + n ≤ a.length) :
    ((a ++ b).drop s).take n = (a.drop s).take n := by
  rw [List.drop_append_eq_append_drop]
  have h1 : s - a.length = 0 := by omega
  rw [h1, List.drop_zero, List.take_append_eq_append_take]
  have h2 : n - (a.drop s).length = 0 := by
    rw [List.length_drop]; omega
  rw [h2, List.take_zero, List.append_nil]

lemma getD_mono_of_adj {l : List Nat}
    (h : ∀ i < l.length - 1, l.getD i 0 ≤ l.getD (i + 1) 0) :
    ∀ {i j : Nat}, i ≤ j → j < l.length → l.getD i 0 ≤ l.getD j 0 := by
  intro i j hij hj
  induction hij with
  | refl => exact Nat.le_refl _
  | @step m hm ih =>
    have hmlen : m < l.length := by omega
    exact Nat.le_trans (ih hmlen) (h m (by omega))

lemma WellFormed.length_pos {c : MapColumn α β} (h : WellFormed c) :
    0 < c.offsets.length :=
  List.length_pos.mpr h.1

lemma WellFormed.mono {c : MapColumn α β} (h : WellFormed c) {i j : Nat}
    (hij : i ≤ j) (hj : j < c.offsets.length) :
    c.offsets.getD i 0 ≤ c.offsets.getD j 0 :=
  getD_mono_of_adj h.2.2.1 hij hj

lemma WellFormed.back_eq_getD {c : MapColumn α β} (h : WellFormed c) :
    c.backOff = c.offsets.getD c.size 0 :=
  getLastD_eq_getD _ _ h.1

lemma WellFormed.getD_le_back {c : MapColumn α β} (h : WellFormed c) {i : Nat}
    (hi : i < c.offsets.length) :
    c.offsets.getD i 0 ≤ c.backOff := by
  rw [h.back_eq_getD]
  exact h.mono (by unfold size; omega) (by have := h.length_pos; unfold size; omega)

lemma WellFormed.keys_len {c : MapColumn α β} (h : WellFormed c) :
    c.keys.length = c.backOff := h.2.2.2.1.symm

lemma WellFormed.values_len {c : MapColumn α β} (h : WellFormed c) :
    c.values.length = c.backOff := h.2.2.2.2.symm

lemma rowOf_extend {c c' : MapColumn α β} {K : List (Option α)} {V : List (Option β)}
    {T : List Nat} (h : WellFormed c)
    (hk : c'.keys = c.keys ++ K) (hv : c'.values = c.values ++ V)
    (ho : c'.offsets = c.offsets ++ T) {j : Nat} (hj : j < c.size) :
    rowOf c' j = rowOf c j := by
  have hj1 : j + 1 < c.offsets.length := by
    have := h.length_pos; unfold size at hj; omega
  have f1 : c.offsets.getD j 0 ≤ c.offsets.getD (j + 1) 0 :=
    h.mono (Nat.le_succ j) hj1
  have f2 : c.offsets.getD (j + 1) 0 ≤ c.backOff := h.getD_le_back hj1
  unfold rowOf rowSize
  rw [ho, hk, hv]
  rw [List.getD_append c.offsets T 0 (j + 1) hj1,
      List.getD_append c.offsets T 0 j (by omega)]
  rw [slice_append _ _ _ _ (by rw [← h.keys_len] at f2; omega),
      slice_append _ _ _ _ (by rw [← h.values_len] at f2; omega)]

lemma appendBackLoop_eq (offs : List Nat) :
    ∀ k, appendBackLoop offs k = offs ++ List.replicate k (offs.getLastD 0) := by
  intro k
  induction k generalizing offs with
  | zero => simp [appendBackLoop]
  | succ k ih =>
    rw [appendBackLoop, ih, List.getLastD_concat]
    rw [List.append_assoc]
    rfl

lemma rows_pad_const (c : MapColumn α β) (count : Nat) (h : WellFormed c) :
    rows { keys := c.keys, values := c.values,
           offsets := c.offsets ++ List.replicate count c.backOff } =
      rows c ++ List.replicate count [] := by
  have hlen := h.length_pos
  set c1 : MapColumn α β :=
    { keys := c.keys, values := c.values,
      offsets := c.offsets ++ List.replicate count c.backOff }
  have hsz : c1.size = c.size + count := by
    show (c.offsets ++ List.replicate count c.backOff).length - 1 = c.size + count
    rw [List.length_append, List.length_replicate]
    unfold size
    omega
  have hoffB : ∀ t, t ≤ count → c1.offsets.getD (c.size + t) 0 = c.backOff := by
    intro t ht
    show (c.offsets ++ List.replicate count c.backOff).getD (c.size + t) 0 = c.backOff
    rcases Nat.eq_zero_or_pos t with h0 | hpos
    · subst h0
      rw [List.getD_append c.offsets _ 0 (c.size + 0) (by unfold size; omega)]
      rw [Nat.add_zero, ← h.back_eq_getD]
    · rw [List.getD_append_right c.offsets _ 0 (c.size + t) (by unfold size; omega)]
      rw [List.getD_eq_getElem?_getD, List.getElem?_replicate,
          if_pos (show c.size + t - c.offsets.length < count by unfold size; omega)]
      rfl
  unfold rows
  rw [hsz, List.range_add, List.map_append, List.map_map]
  congr 1
  · apply List.map_congr_left
    intro j hj
    exact @rowOf_extend α β c c1 [] [] (List.replicate count c.backOff) h
      (by simp) (by simp) rfl j (List.mem_range.mp hj)
  · have hconst : ∀ t ∈ List.range count,
        (rowOf c1 ∘ fun x => c.size + x) t = ([] : List (Option α × Option β)) := by
      intro t htmem
      have htlt : t < count := List.mem_range.mp htmem
      show rowOf c1 (c.size + t) = []
      unfold rowOf rowSize
      have e2 : c1.offsets.getD (c.size + t + 1) 0 = c.backOff :=
        hoffB (t + 1) (by omega)
      rw [hoffB t (by omega), e2, Nat.sub_self, List.take_zero, List.zip_nil_left]
    rw [List.map_congr_left hconst]
    simp

/-- C10: compare_at(left, right, right_column, nan_direction_hint) returns
-1 for every pair of row indices and every right-hand column, including a
row compared with itself — the container provides no content-based
ordering through this interface. -/
theorem compare_at_always_neg_one (c rc : MapColumn α β) (left right : Nat) (hint : Int) :
    compare_at c left right rc hint = -1 := rfl

/-- C7: append_nulls(count) and append_default(count) each append exactly
count zero-cardinality rows: the row count grows by count, the new offset
entries all equal the previous back offset, both children are unchanged,
rows gain count empty collections, append_nulls returns true, and set_null
always returns false. -/
theorem append_nulls_append_default_empty_rows
    (c : MapColumn α β) (count : Nat) (h : WellFormed c) :
    (append_nulls c count).2 = true ∧
    (append_nulls c count).1.keys = c.keys ∧
    (append_nulls c count).1.values = c.values ∧
    (append_nulls c count).1.offsets = c.offsets ++ List.replicate count c.backOff ∧
    (append_nulls c count).1.size = c.size + count ∧
    rows (append_nulls c count).1 = rows c ++ List.replicate count [] ∧
    append_default c count = (append_nulls c count).1 ∧
    (∀ idx, set_null c idx = false) := by
  have hlen := h.length_pos
  have hloop : appendBackLoop c.offsets count =
      c.offsets ++ List.replicate count c.backOff := appendBackLoop_eq c.offsets count
  have hc1 : (append_nulls c count).1 =
      { keys := c.keys, values := c.values,
        offsets := c.offsets ++ List.replicate count c.backOff } :=
    congrArg (fun o => ({ keys := c.keys, values := c.values, offsets := o } :
      MapColumn α β)) hloop
  refine ⟨rfl, by rw [hc1], by rw [hc1], by rw [hc1], ?_, ?_, ?_, fun _ => rfl⟩
  · rw [hc1]
    show (c.offsets ++ List.replicate count c.backOff).length - 1 = c.size + count
    rw [List.length_append, List.length_replicate]
    unfold size
    omega
  · rw [hc1]
    exact rows_pad_const c count h
  · rw [hc1]
    unfold append_default
    rfl

/-- C9: the code of the single-row overload byte_size(idx) passes
offsets[idx+1] as the element count to both children, not the row's
element count offsets[idx+1] - offsets[idx] claimed; on the well-formed
column with offsets [0,1,2,4] at idx = 1 (elements [1,2) of 4), with unit
element footprints and 4 bytes for the offset entry under either
accounting, the single-row overload charges elements [1,3) and yields 8
while byte_size(1,1) yields 6. -/
theorem byte_size_one_passes_absolute_offset :
    WellFormed ({ keys := [some 1, some 2, some 3, some 4]
                  values := [some 5, some 6, some 7, some 8]
                  offsets := [0, 1, 2, 4] } : MapColumn Nat Nat) ∧
    byte_size_one (fun _ => 1) (fun _ => 1)
      ({ keys := [some 1, some 2, some 3, some 4]
         values := [some 5, some 6, some 7, some 8]
         offsets := [0, 1, 2, 4] } : MapColumn Nat Nat) 1 = 8 ∧
    byte_size_range (fun _ => 1) (fun _ => 1) (fun _ _ => 4)
      ({ keys := [some 1, some 2, some 3, some 4]
         values := [some 5, some 6, some 7, some 8]
         offsets := [0, 1, 2, 4] } : MapColumn Nat Nat) 1 1 = 6 := by
  refine ⟨by decide, by decide, by decide⟩

/-- C6: upgrade_if_overflow returns the capacity-exceeded error exactly
when the row count exceeds the ceiling (the source guard is
offsets.size() > MAX_CAPACITY_LIMIT, i.e. row count > limit - 1), leaving
the column unmodified in that case; otherwise it upgrades both children
and returns the promoted column (a no-op success when neither child
changes). Child upgrades are assumed to succeed, as child failures are
propagated verbatim and are not this column's outcome. -/
theorem upgrade_if_overflow_capacity_guard (limit : Nat)
    (upK : List (Option α) → Except String (List (Option α)))
    (upV : List (Option β) → Except String (List (Option β)))
    (c : MapColumn α β) (ks : List (Option α)) (vs : List (Option β))
    (hl : 1 ≤ limit)
    (hK : upK c.keys = Except.ok ks) (hV : upV c.values = Except.ok vs) :
    (limit - 1 < c.size →
      upgrade_if_overflow limit upK upV c =
        (Except.error "Size of MapColumn exceed the limit", c)) ∧
    (c.size ≤ limit - 1 →
      upgrade_if_overflow limit upK upV c =
        (Except.ok { c with keys := ks, values := vs },
         { c with keys := ks, values := vs })) := by
  constructor
  · intro hbig
    unfold size at hbig
    unfold upgrade_if_overflow
    rw [if_pos (show limit < c.offsets.length by omega)]
  · intro hsmall
    unfold size at hsmall
    unfold upgrade_if_overflow
    rw [if_neg (show ¬ limit < c.offsets.length by omega), hK, hV]

/-- Witness for C6: a two-row column with limit 1 hits the capacity error;
the same column with limit 4 upgrades (identity child upgrades, no-op). -/
theorem upgrade_if_overflow_capacity_guard_witness :
    (1 - 1 < ({ keys := [some 0], values := [some 0], offsets := [0, 1, 1] } :
        MapColumn Nat Nat).size ∧
      upgrade_if_overflow 1 (fun l => Except.ok l) (fun l => Except.ok l)
        ({ keys := [some 0], values := [some 0], offsets := [0, 1, 1] } :
          MapColumn Nat Nat) =
        (Except.error "Size of MapColumn exceed the limit",
         { keys := [some 0], values := [some 0], offsets := [0, 1, 1] })) ∧
    (({ keys := [some 0], values := [some 0], offsets := [0, 1, 1] } :
        MapColumn Nat Nat).size ≤ 4 - 1 ∧
      upgrade_if_overflow 4 (fun l => Except.ok l) (fun l => Except.ok l)
        ({ keys := [some 0], values := [some 0], offsets := [0, 1, 1] } :
          MapColumn Nat Nat) =
        (Except.ok { keys := [some 0], values := [some 0], offsets := [0, 1, 1] },
         { keys := [some 0], values := [some 0], offsets := [0, 1, 1] })) :=
  ⟨⟨by decide,
    (upgrade_if_overflow_capacity_guard 1 (fun l => Except.ok l) (fun l => Except.ok l)
      _ _ _ (by decide) rfl rfl).1 (by decide)⟩,
   ⟨by decide,
    (upgrade_if_overflow_capacity_guard 4 (fun l => Except.ok l) (fun l => Except.ok l)
      _ _ _ (by decide) rfl rfl).2 (by decide)⟩⟩

/-- Witness for C7: a concrete two-row column with two nulls appended. -/
theorem append_nulls_append_default_empty_rows_witness :
    WellFormed ({ keys := [some 1, none], values := [some 2, some 3], offsets := [0, 2, 2] } :
        MapColumn Nat Nat) ∧
    rows (append_nulls
        ({ keys := [some 1, none], values := [some 2, some 3], offsets := [0, 2, 2] } :
          MapColumn Nat Nat) 2).1 =
      rows ({ keys := [some 1, none], values := [some 2, some 3], offsets := [0, 2, 2] } :
          MapColumn Nat Nat) ++ List.replicate 2 [] :=
  ⟨by decide,
   (append_nulls_append_default_empty_rows
     ({ keys := [some 1, none], values := [some 2, some 3], offsets := [0, 2, 2] } :
       MapColumn Nat Nat) 2 (by decide)).2.2.2.2.2.1⟩

lemma appendOffsetsLoop_eq (dst : List Nat) {s : List Nat} (i k : Nat)
    (hadj : ∀ a < s.length - 1, s.getD a 0 ≤ s.getD (a + 1) 0)
    (hik : i + k < s.length) :
    appendOffsetsLoop dst s i k =
      dst ++ (List.range k).map
        (fun t => dst.getLastD 0 + (s.getD (i + t + 1) 0 - s.getD i 0)) := by
  induction k generalizing dst i with
  | zero => simp [appendOffsetsLoop]
  | succ k ih =>
    rw [appendOffsetsLoop,
        ih (dst ++ [dst.getLastD 0 + rowSize s i]) (i + 1) (by omega),
        List.getLastD_concat, List.range_succ_eq_map]
    simp only [List.map_cons, List.map_map, List.append_assoc, List.singleton_append]
    congr 1
    refine congrArg₂ List.cons rfl ?_
    apply List.map_congr_left
    intro t htmem
    have htlt : t < k := List.mem_range.mp htmem
    show dst.getLastD 0 + rowSize s i + (s.getD (i + 1 + t + 1) 0 - s.getD (i + 1) 0) =
      dst.getLastD 0 + (s.getD (i + Nat.succ t + 1) 0 - s.getD i 0)
    unfold rowSize
    have e1 : i + 1 + t + 1 = i + Nat.succ t + 1 := by omega
    rw [e1]
    have f1 : s.getD i 0 ≤ s.getD (i + 1) 0 := hadj i (by omega)
    have f2 : s.getD (i + 1) 0 ≤ s.getD (i + Nat.succ t + 1) 0 :=
      getD_mono_of_adj hadj (by omega) (by omega)
    omega

lemma append_keys (c src : MapColumn α β) (offset count : Nat) :
    (append c src offset count).keys =
      c.keys ++ (src.keys.drop (src.offsets.getD offset 0)).take
        (src.offsets.getD (offset + count) 0 - src.offsets.getD offset 0) := rfl

lemma append_values (c src : MapColumn α β) (offset count : Nat) :
    (append c src offset count).values =
      c.values ++ (src.values.drop (src.offsets.getD offset 0)).take
        (src.offsets.getD (offset + count) 0 - src.offsets.getD offset 0) := rfl

lemma append_offsets (c src : MapColumn α β) (offset count : Nat)
    (hs : WellFormed src) (hb : offset + count ≤ src.size) :
    (append c src offset count).offsets =
      c.offsets ++ (List.range count).map
        (fun t => c.backOff +
          (src.offsets.getD (offset + t + 1) 0 - src.offsets.getD offset 0)) := by
  have hslen := hs.length_pos
  show appendOffsetsLoop c.offsets src.offsets offset count = _
  exact appendOffsetsLoop_eq c.offsets offset count hs.2.2.1 (by unfold size at hb; omega)

lemma append_size (c src : MapColumn α β) (offset count : Nat)
    (hc : WellFormed c) (hs : WellFormed src) (hb : offset + count ≤ src.size) :
    (append c src offset count).size = c.size + count := by
  have hlen := hc.length_pos
  show (append c src offset count).offsets.length - 1 = c.offsets.length - 1 + count
  rw [append_offsets c src offset count hs hb, List.length_append, List.length_map,
      List.length_range]
  omega

lemma append_off_getD (c src : MapColumn α β) {offset count : Nat} (hc : WellFormed c)
    (hs : WellFormed src) (hb : offset + count ≤ src.size) :
    ∀ t ≤ count, (append c src offset count).offsets.getD (c.size + t) 0 =
      c.backOff + (src.offsets.getD (offset + t) 0 - src.offsets.getD offset 0) := by
  have hlen := hc.length_pos
  intro t ht
  rw [append_offsets c src offset count hs hb]
  rcases Nat.eq_zero_or_pos t with h0 | hpos
  · subst h0
    rw [List.getD_append _ _ _ _ (by unfold size; omega)]
    have e : c.offsets.getD (c.size + 0) 0 = c.backOff := by
      rw [Nat.add_zero, ← hc.back_eq_getD]
    rw [e]
    simp
  · rw [List.getD_append_right _ _ _ _ (by unfold size; omega)]
    rw [List.getD_eq_getElem?_getD, List.getElem?_map,
        List.getElem?_range (show c.size + t - c.offsets.length < count by
          unfold size; omega)]
    have e : offset + (c.size + t - c.offsets.length) + 1 = offset + t := by
      unfold size; omega
    simp only [Option.map_some', Option.getD_some, e]

lemma append_back (c src : MapColumn α β) (offset count : Nat)
    (hc : WellFormed c) (hs : WellFormed src) (hb : offset + count ≤ src.size) :
    (append c src offset count).backOff =
      c.backOff + (src.offsets.getD (offset + count) 0 - src.offsets.getD offset 0) := by
  have h1 := append_off_getD c src hc hs hb count (Nat.le_refl count)
  have h2 : (append c src offset count).backOff =
      (append c src offset count).offsets.getD (c.size + count) 0 := by
    have hne : (append c src offset count).offsets ≠ [] := by
      rw [append_offsets c src offset count hs hb]
      intro hemp
      exact hc.1 (List.append_eq_nil.mp hemp).1
    have hlen := hc.length_pos
    unfold backOff
    rw [getLastD_eq_getD _ _ hne, append_offsets c src offset count hs hb,
        List.length_append, List.length_map, List.length_range]
    congr 1
    unfold size
    omega
  rw [h2, h1]

lemma append_keys_len (c src : MapColumn α β) (offset count : Nat)
    (hs : WellFormed src) (hb : offset + count ≤ src.size) :
    (append c src offset count).keys.length =
      c.keys.length + (src.offsets.getD (offset + count) 0 - src.offsets.getD offset 0) := by
  have hslen := hs.length_pos
  rw [append_keys, List.length_append, List.length_take, List.length_drop]
  have h1 : src.offsets.getD (offset + count) 0 ≤ src.backOff :=
    hs.getD_le_back (by unfold size at hb; omega)
  have h2 : src.offsets.getD offset 0 ≤ src.offsets.getD (offset + count) 0 :=
    hs.mono (by omega) (by unfold size at hb; omega)
  have h3 := hs.keys_len
  omega

lemma append_values_len (c src : MapColumn α β) (offset count : Nat)
    (hs : WellFormed src) (hb : offset + count ≤ src.size) :
    (append c src offset count).values.length =
      c.values.length + (src.offsets.getD (offset + count) 0 - src.offsets.getD offset 0) := by
  have hslen := hs.length_pos
  rw [append_values, List.length_append, List.length_take, List.length_drop]
  have h1 : src.offsets.getD (offset + count) 0 ≤ src.backOff :=
    hs.getD_le_back (by unfold size at hb; omega)
  have h2 : src.offsets.getD offset 0 ≤ src.offsets.getD (offset + count) 0 :=
    hs.mono (by omega) (by unfold size at hb; omega)
  have h3 := hs.values_len
  omega

lemma WellFormed.append_pres {c src : MapColumn α β} (hc : WellFormed c)
    (hs : WellFormed src) {offset count : Nat} (hb : offset + count ≤ src.size) :
    WellFormed (append c src offset count) := by
  have hlen := hc.length_pos
  have hslen := hs.length_pos
  have hoffs := append_offsets c src offset count hs hb
  refine ⟨?_, ?_, ?_, ?_, ?_⟩
  · rw [hoffs]
    intro hemp
    exact hc.1 (List.append_eq_nil.mp hemp).1
  · rw [hoffs, List.getD_append _ _ _ _ hlen]
    exact hc.2.1
  · intro a ha
    rw [hoffs, List.length_append, List.length_map, List.length_range] at ha
    rcases Nat.lt_or_ge (a + 1) c.offsets.length with hcase | hcase
    · rw [hoffs, List.getD_append _ _ _ _ (by omega), List.getD_append _ _ _ _ hcase]
      exact hc.2.2.1 a (by omega)
    · have hsz : ∀ u, u ≤ count →
          (append c src offset count).offsets.getD (c.size + u) 0 =
            c.backOff + (src.offsets.getD (offset + u) 0 - src.offsets.getD offset 0) :=
        append_off_getD c src hc hs hb
      have ha1 : a = c.size + (a + 1 - c.offsets.length) := by unfold size; omega
      have ha2 : a + 1 = c.size + (a + 1 - c.offsets.length + 1) := by unfold size; omega
      have g1 := hsz (a + 1 - c.offsets.length) (by omega)
      have g2 := hsz (a + 1 - c.offsets.length + 1) (by omega)
      rw [← ha1] at g1
      rw [← ha2] at g2
      rw [g1, g2]
      have hm : src.offsets.getD (offset + (a + 1 - c.offsets.length)) 0 ≤
          src.offsets.getD (offset + (a + 1 - c.offsets.length + 1)) 0 :=
        hs.mono (by omega) (by unfold size at hb; omega)
      omega
  · have hbk := append_back c src offset count hc hs hb
    have hkl := append_keys_len c src offset count hs hb
    rw [hbk, hkl, ← hc.keys_len]
  · have hbk := append_back c src offset count hc hs hb
    have hkl := append_values_len c src offset count hs hb
    rw [hbk, hkl, ← hc.values_len]

lemma append_rowOf_new {c src : MapColumn α β} {offset count : Nat} (hc : WellFormed c)
    (hs : WellFormed src) (hb : offset + count ≤ src.size) {t : Nat} (ht : t < count) :
    rowOf (append c src offset count) (c.size + t) = rowOf src (offset + t) := by
  have hlen := hc.length_pos
  have hslen := hs.length_pos
  have hsz := append_off_getD c src hc hs hb
  have g1 := hsz t (by omega)
  have g2 : (append c src offset count).offsets.getD (c.size + t + 1) 0 =
      c.backOff + (src.offsets.getD (offset + (t + 1)) 0 - src.offsets.getD offset 0) := by
    have := hsz (t + 1) (by omega)
    rw [← this]
    congr 1
  have m1 : src.offsets.getD offset 0 ≤ src.offsets.getD (offset + t) 0 :=
    hs.mono (by omega) (by unfold size at hb; omega)
  have m2 : src.offsets.getD (offset + t) 0 ≤ src.offsets.getD (offset + (t + 1)) 0 :=
    hs.mono (by omega) (by unfold size at hb; omega)
  have m3 : src.offsets.getD (offset + (t + 1)) 0 ≤ src.offsets.getD (offset + count) 0 :=
    hs.mono (by omega) (by unfold size at hb; omega)
  have m4 : src.offsets.getD (offset + count) 0 ≤ src.backOff :=
    hs.getD_le_back (by unfold size at hb; omega)
  unfold rowOf rowSize
  rw [g1]
  have g2' : (append c src offset count).offsets.getD (c.size + t + 1) 0 =
      c.backOff + (src.offsets.getD (offset + (t + 1)) 0 - src.offsets.getD offset 0) := g2
  rw [g2']
  have ekeys : ((append c src offset count).keys.drop
        (c.backOff + (src.offsets.getD (offset + t) 0 - src.offsets.getD offset 0))).take
        (c.backOff + (src.offsets.getD (offset + (t + 1)) 0 - src.offsets.getD offset 0) -
          (c.backOff + (src.offsets.getD (offset + t) 0 - src.offsets.getD offset 0))) =
      (src.keys.drop (src.offsets.getD (offset + t) 0)).take
        (src.offsets.getD (offset + t + 1) 0 - src.offsets.getD (offset + t) 0) := by
    rw [append_keys]
    have hck : c.keys.length = c.backOff := hc.keys_len
    have hdrop : (c.keys ++ (src.keys.drop (src.offsets.getD offset 0)).take
          (src.offsets.getD (offset + count) 0 - src.offsets.getD offset 0)).drop
          (c.backOff + (src.offsets.getD (offset + t) 0 - src.offsets.getD offset 0)) =
        ((src.keys.drop (src.offsets.getD offset 0)).take
          (src.offsets.getD (offset + count) 0 - src.offsets.getD offset 0)).drop
          (src.offsets.getD (offset + t) 0 - src.offsets.getD offset 0) := by
      rw [← hck, List.drop_append]
    rw [hdrop, List.drop_take, List.drop_drop]
    have e1 : src.offsets.getD offset 0 +
        (src.offsets.getD (offset + t) 0 - src.offsets.getD offset 0) =
        src.offsets.getD (offset + t) 0 := by omega
    rw [e1, List.take_take]
    congr 1
    have e2 : c.backOff + (src.offsets.getD (offset + (t + 1)) 0 - src.offsets.getD offset 0) -
        (c.backOff + (src.offsets.getD (offset + t) 0 - src.offsets.getD offset 0)) =
        src.offsets.getD (offset + (t + 1)) 0 - src.offsets.getD (offset + t) 0 := by omega
    rw [e2]
    have e3 : offset + t + 1 = offset + (t + 1) := by omega
    rw [e3]
    omega
  have evals : ((append c src offset count).values.drop
        (c.backOff + (src.offsets.getD (offset + t) 0 - src.offsets.getD offset 0))).take
        (c.backOff + (src.offsets.getD (offset + (t + 1)) 0 - src.offsets.getD offset 0) -
          (c.backOff + (src.offsets.getD (offset + t) 0 - src.offsets.getD offset 0))) =
      (src.values.drop (src.offsets.getD (offset + t) 0)).take
        (src.offsets.getD (offset + t + 1) 0 - src.offsets.getD (offset + t) 0) := by
    rw [append_values]
    have hck : c.values.length = c.backOff := hc.values_len
    have hdrop : (c.values ++ (src.values.drop (src.offsets.getD offset 0)).take
          (src.offsets.getD (offset + count) 0 - src.offsets.getD offset 0)).drop
          (c.backOff + (src.offsets.getD (offset + t) 0 - src.offsets.getD offset 0)) =
        ((src.values.drop (src.offsets.getD offset 0)).take
          (src.offsets.getD (offset + count) 0 - src.offsets.getD offset 0)).drop
          (src.offsets.getD (offset + t) 0 - src.offsets.getD offset 0) := by
      rw [← hck, List.drop_append]
    rw [hdrop, List.drop_take, List.drop_drop]
    have e1 : src.offsets.getD offset 0 +
        (src.offsets.getD (offset + t) 0 - src.offsets.getD offset 0) =
        src.offsets.getD (offset + t) 0 := by omega
    rw [e1, List.take_take]
    congr 1
    have e2 : c.backOff + (src.offsets.getD (offset + (t + 1)) 0 - src.offsets.getD offset 0) -
        (c.backOff + (src.offsets.getD (offset + t) 0 - src.offsets.getD offset 0)) =
        src.offsets.getD (offset + (t + 1)) 0 - src.offsets.getD (offset + t) 0 := by omega
    rw [e2]
    have e3 : offset + t + 1 = offset + (t + 1) := by omega
    rw [e3]
    omega
  rw [ekeys, evals]

lemma append_rows {c src : MapColumn α β} {offset count : Nat} (hc : WellFormed c)
    (hs : WellFormed src) (hb : offset + count ≤ src.size) :
    rows (append c src offset count) = rows c ++ sliceRows src offset count := by
  unfold rows sliceRows
  rw [append_size c src offset count hc hs hb, List.range_add, List.map_append,
      List.map_map]
  congr 1
  · apply List.map_congr_left
    intro j hj
    exact rowOf_extend hc (append_keys c src offset count)
      (append_values c src offset count) (append_offsets c src offset count hs hb)
      (List.mem_range.mp hj)
  · apply List.map_congr_left
    intro t htmem
    exact append_rowOf_new hc hs hb (List.mem_range.mp htmem)

lemma ext' {x y : MapColumn α β} (h1 : x.keys = y.keys) (h2 : x.values = y.values)
    (h3 : x.offsets = y.offsets) : x = y := by
  cases x
  cases y
  simp_all

lemma appendOffsetsLoop_add (dst s : List Nat) (i a b : Nat) :
    appendOffsetsLoop dst s i (a + b) =
      appendOffsetsLoop (appendOffsetsLoop dst s i a) s (i + a) b := by
  induction a generalizing dst i with
  | zero =>
    simp [appendOffsetsLoop]
  | succ a ih =>
    have e : a + 1 + b = (a + b) + 1 := by omega
    rw [e]
    show appendOffsetsLoop (dst ++ [dst.getLastD 0 + rowSize s i]) s (i + 1) (a + b) = _
    rw [ih]
    have e2 : i + 1 + a = i + (a + 1) := by omega
    rw [e2]
    rfl

lemma foldl_congr_mem {γ δ : Type} {l : List γ} {f g : δ → γ → δ}
    (h : ∀ b, ∀ x ∈ l, f b x = g b x) : ∀ b, l.foldl f b = l.foldl g b := by
  induction l with
  | nil => intro b; rfl
  | cons x xs ih =>
    intro b
    show xs.foldl f (f b x) = xs.foldl g (g b x)
    rw [h b x (by simp)]
    exact ih (fun b' x' hx' => h b' x' (by simp [hx'])) (g b x)

lemma append_split (c src : MapColumn α β) (offset k : Nat)
    (hs : WellFormed src) (hb : offset + k + 1 ≤ src.size) :
    append c src offset (k + 1) = append (append c src offset k) src (offset + k) 1 := by
  have hslen := hs.length_pos
  have m1 : src.offsets.getD offset 0 ≤ src.offsets.getD (offset + k) 0 :=
    hs.mono (by omega) (by unfold size at hb; omega)
  have m2 : src.offsets.getD (offset + k) 0 ≤ src.offsets.getD (offset + k + 1) 0 :=
    hs.mono (by omega) (by unfold size at hb; omega)
  refine ext' ?_ ?_ ?_
  · show childAppendRange c.keys src.keys (src.offsets.getD offset 0)
        (src.offsets.getD (offset + (k + 1)) 0 - src.offsets.getD offset 0) =
      childAppendRange
        (childAppendRange c.keys src.keys (src.offsets.getD offset 0)
          (src.offsets.getD (offset + k) 0 - src.offsets.getD offset 0))
        src.keys (src.offsets.getD (offset + k) 0)
        (src.offsets.getD (offset + k + 1) 0 - src.offsets.getD (offset + k) 0)
    unfold childAppendRange
    rw [List.append_assoc]
    congr 1
    have e : offset + (k + 1) = offset + k + 1 := by omega
    rw [e]
    have e2 : src.offsets.getD (offset + k + 1) 0 - src.offsets.getD offset 0 =
        (src.offsets.getD (offset + k) 0 - src.offsets.getD offset 0) +
        (src.offsets.getD (offset + k + 1) 0 - src.offsets.getD (offset + k) 0) := by omega
    rw [e2, List.take_add, List.drop_drop]
    have e3 : src.offsets.getD offset 0 +
        (src.offsets.getD (offset + k) 0 - src.offsets.getD offset 0) =
        src.offsets.getD (offset + k) 0 := by omega
    rw [e3]
  · show childAppendRange c.values src.values (src.offsets.getD offset 0)
        (src.offsets.getD (offset + (k + 1)) 0 - src.offsets.getD offset 0) =
      childAppendRange
        (childAppendRange c.values src.values (src.offsets.getD offset 0)
          (src.offsets.getD (offset + k) 0 - src.offsets.getD offset 0))
        src.values (src.offsets.getD (offset + k) 0)
        (src.offsets.getD (offset + k + 1) 0 - src.offsets.getD (offset + k) 0)
    unfold childAppendRange
    rw [List.append_assoc]
    congr 1
    have e : offset + (k + 1) = offset + k + 1 := by omega
    rw [e]
    have e2 : src.offsets.getD (offset + k + 1) 0 - src.offsets.getD offset 0 =
        (src.offsets.getD (offset + k) 0 - src.offsets.getD offset 0) +
        (src.offsets.getD (offset + k + 1) 0 - src.offsets.getD (offset + k) 0) := by omega
    rw [e2, List.take_add, List.drop_drop]
    have e3 : src.offsets.getD offset 0 +
        (src.offsets.getD (offset + k) 0 - src.offsets.getD offset 0) =
        src.offsets.getD (offset + k) 0 := by omega
    rw [e3]
  · show appendOffsetsLoop c.offsets src.offsets offset (k + 1) =
      appendOffsetsLoop (appendOffsetsLoop c.offsets src.offsets offset k)
        src.offsets (offset + k) 1
    exact appendOffsetsLoop_add c.offsets src.offsets offset k 1

/-- C5: the bulk append(src, offset, count) equals the fold of count
single-row appends append(src, offset + i, 1) for i = 0..count-1, which is
exactly the loop run by append_selective over the gathered index list
[offset, ..., offset + count - 1]; in particular the destination column
(rows included) is identical. -/
theorem append_bulk_eq_single_appends
    (c src : MapColumn α β) (offset count : Nat)
    (hs : WellFormed src) (hb : offset + count ≤ src.size) :
    append c src offset count =
      (List.range count).foldl (fun acc i => append acc src (offset + i) 1) c ∧
    append c src offset count =
      append_selective c src ((List.range count).map (fun i => offset + i)) 0 count := by
  have main : append c src offset count =
      (List.range count).foldl (fun acc i => append acc src (offset + i) 1) c := by
    induction count with
    | zero =>
      refine ext' ?_ ?_ ?_ <;>
        simp [append, childAppendRange, appendOffsetsLoop, List.range_zero]
    | succ k ih =>
      rw [List.range_succ, List.foldl_append,
          ← ih (by omega), append_split c src offset k hs (by omega)]
      rfl
  refine ⟨main, ?_⟩
  rw [main]
  unfold append_selective
  refine (foldl_congr_mem ?_ c).symm
  intro b x hx
  have hxlt : x < count := List.mem_range.mp hx
  have e : ((List.range count).map (fun i => offset + i)).getD (0 + x) 0 = offset + x := by
    rw [List.getD_eq_getElem?_getD, List.getElem?_map,
        List.getElem?_range (show 0 + x < count by omega)]
    simp
  rw [e]

/-- Witness for C5: a three-row source appended in bulk into a one-row
destination equals the three single-row appends. -/
theorem append_bulk_eq_single_appends_witness :
    WellFormed ({ keys := [some 1, some 2, some 3],
                  values := [some 4, some 5, some 6],
                  offsets := [0, 1, 1, 3] } : MapColumn Nat Nat) ∧
    0 + 3 ≤ ({ keys := [some 1, some 2, some 3],
               values := [some 4, some 5, some 6],
               offsets := [0, 1, 1, 3] } : MapColumn Nat Nat).size ∧
    append ({ keys := [some 9], values := [some 9], offsets := [0, 1] } : MapColumn Nat Nat)
        ({ keys := [some 1, some 2, some 3], values := [some 4, some 5, some 6],
           offsets := [0, 1, 1, 3] }) 0 3 =
      (List.range 3).foldl
        (fun acc i => append acc
          ({ keys := [some 1, some 2, some 3], values := [some 4, some 5, some 6],
             offsets := [0, 1, 1, 3] }) (0 + i) 1)
        ({ keys := [some 9], values := [some 9], offsets := [0, 1] }) :=
  ⟨by decide, by decide,
   (append_bulk_eq_single_appends
     ({ keys := [some 9], values := [some 9], offsets := [0, 1] })
     ({ keys := [some 1, some 2, some 3], values := [some 4, some 5, some 6],
        offsets := [0, 1, 1, 3] }) 0 3 (by decide) (by decide)).1⟩

lemma decodeU32_u32le (n : Nat) (hn : n < 4294967296) (rest : List Nat) :
    decodeU32 (u32le n ++ rest) = some (n, rest) := by
  have e : n % 256 + 256 * (n / 256 % 256) + 65536 * (n / 65536 % 256) +
      16777216 * (n / 16777216 % 256) = n := by omega
  show some (n % 256 + 256 * (n / 256 % 256) + 65536 * (n / 65536 % 256) +
      16777216 * (n / 16777216 % 256), rest) = some (n, rest)
  rw [e]

lemma slice_eq_map_getD {γ : Type} (l : List (Option γ)) (s m : Nat)
    (h : s + m ≤ l.length) :
    (l.drop s).take m = (List.range m).map (fun i => l.getD (s + i) none) := by
  induction m with
  | zero => simp
  | succ k ih =>
    rw [List.take_succ, ih (by omega), List.range_succ, List.map_append]
    congr 1
    rw [List.getElem?_drop, List.getElem?_eq_getElem (show s + k < l.length by omega)]
    simp [List.getD_eq_getElem?_getD,
      List.getElem?_eq_getElem (show s + k < l.length by omega)]

lemma foldl_bytes_pair {γ : Type} (F1 F2 : γ → List Nat) (G1 G2 : γ → Nat) :
    ∀ (l : List γ) (b0 : List Nat) (s0 : Nat),
      l.foldl (fun acc x => (acc.1 ++ F1 x ++ F2 x, acc.2 + G1 x + G2 x)) (b0, s0) =
        (b0 ++ l.flatMap (fun x => F1 x ++ F2 x),
         s0 + (l.map (fun x => G1 x + G2 x)).sum) := by
  intro l
  induction l with
  | nil =>
    intro b0 s0
    simp
  | cons x xs ih =>
    intro b0 s0
    show xs.foldl (fun acc x => (acc.1 ++ F1 x ++ F2 x, acc.2 + G1 x + G2 x))
        (b0 ++ F1 x ++ F2 x, s0 + G1 x + G2 x) = _
    rw [ih]
    have h1 : b0 ++ F1 x ++ F2 x ++ xs.flatMap (fun x => F1 x ++ F2 x) =
        b0 ++ (x :: xs).flatMap (fun x => F1 x ++ F2 x) := by
      rw [List.flatMap_cons]
      simp [List.append_assoc]
    have h2 : s0 + G1 x + G2 x + (xs.map (fun x => G1 x + G2 x)).sum =
        s0 + ((x :: xs).map (fun x => G1 x + G2 x)).sum := by
      rw [List.map_cons, List.sum_cons]
      omega
    exact congrArg₂ Prod.mk h1 h2

lemma foldl_add_pair {γ : Type} (G1 G2 : γ → Nat) :
    ∀ (l : List γ) (s0 : Nat),
      l.foldl (fun acc x => acc + G1 x + G2 x) s0 =
        s0 + (l.map (fun x => G1 x + G2 x)).sum := by
  intro l
  induction l with
  | nil =>
    intro s0
    simp
  | cons x xs ih =>
    intro s0
    show xs.foldl (fun acc x => acc + G1 x + G2 x) (s0 + G1 x + G2 x) = _
    rw [ih, List.map_cons, List.sum_cons]
    omega

lemma serialize_closed (encK : Option α → List Nat × Nat) (encV : Option β → List Nat × Nat)
    (c : MapColumn α β) (idx : Nat) :
    serialize encK encV c idx =
      (u32le (rowSize c.offsets idx) ++
        (List.range (rowSize c.offsets idx)).flatMap
          (fun i => (encK (c.keys.getD (c.offsets.getD idx 0 + i) none)).1 ++
            (encV (c.values.getD (c.offsets.getD idx 0 + i) none)).1),
       4 + ((List.range (rowSize c.offsets idx)).map
          (fun i => (encK (c.keys.getD (c.offsets.getD idx 0 + i) none)).2 +
            (encV (c.values.getD (c.offsets.getD idx 0 + i) none)).2)).sum) := by
  show (List.range (rowSize c.offsets idx)).foldl
      (fun acc i =>
        (acc.1 ++ (encK (c.keys.getD (c.offsets.getD idx 0 + i) none)).1 ++
          (encV (c.values.getD (c.offsets.getD idx 0 + i) none)).1,
         acc.2 + (encK (c.keys.getD (c.offsets.getD idx 0 + i) none)).2 +
          (encV (c.values.getD (c.offsets.getD idx 0 + i) none)).2))
      (u32le (rowSize c.offsets idx), 4) = _
  exact foldl_bytes_pair _ _ _ _ _ _ _

lemma serialize_size_closed (szK : Option α → Nat) (szV : Option β → Nat)
    (c : MapColumn α β) (idx : Nat) :
    serialize_size szK szV c idx =
      4 + ((List.range (rowSize c.offsets idx)).map
        (fun i => szK (c.keys.getD (c.offsets.getD idx 0 + i) none) +
          szV (c.values.getD (c.offsets.getD idx 0 + i) none))).sum := by
  show (List.range (rowSize c.offsets idx)).foldl
      (fun acc i => acc + szK (c.keys.getD (c.offsets.getD idx 0 + i) none) +
        szV (c.values.getD (c.offsets.getD idx 0 + i) none)) 4 = _
  exact foldl_add_pair _ _ _ _

lemma flatMap_range_shift (F : Nat → List Nat) (s m : Nat) :
    (List.range m).flatMap (fun i => F (s + i)) = (List.range' s m).flatMap F := by
  rw [List.range'_eq_map_range, List.flatMap_map]

lemma map_range_shift {γ : Type} (F : Nat → γ) (s m : Nat) :
    (List.range m).map (fun i => F (s + i)) = (List.range' s m).map F := by
  rw [List.range'_eq_map_range, List.map_map]
  rfl

lemma deserLoop_step {decK : List Nat → Option (Option α × List Nat)}
    {decV : List Nat → Option (Option β × List Nat)}
    {k : Nat} {c0 : MapColumn α β} {pos0 pos1 pos2 : List Nat}
    {e0 : Option α} {f0 : Option β}
    (h1 : decK pos0 = some (e0, pos1)) (h2 : decV pos1 = some (f0, pos2)) :
    deserLoop decK decV (k + 1) c0 pos0 =
      deserLoop decK decV k
        { c0 with keys := c0.keys ++ [e0], values := c0.values ++ [f0] } pos2 := by
  show (match decK pos0 with
    | none => none
    | some (e1, p1) =>
      match decV p1 with
      | none => none
      | some (e2, p2) =>
        deserLoop decK decV k
          { c0 with keys := c0.keys ++ [e1], values := c0.values ++ [e2] } p2) = _
  rw [h1]
  show (match decV pos1 with
    | none => none
    | some (e2, p2) =>
      deserLoop decK decV k
        { c0 with keys := c0.keys ++ [e0], values := c0.values ++ [e2] } p2) = _
  rw [h2]

lemma deserLoop_roundtrip {decK : List Nat → Option (Option α × List Nat)}
    {decV : List Nat → Option (Option β × List Nat)}
    {encK : Option α → List Nat × Nat} {encV : Option β → List Nat × Nat}
    (hdecK : ∀ e rest, decK ((encK e).1 ++ rest) = some (e, rest))
    (hdecV : ∀ e rest, decV ((encV e).1 ++ rest) = some (e, rest))
    (ks : List (Option α)) (vs : List (Option β)) :
    ∀ (k start : Nat) (c0 : MapColumn α β) (extra : List Nat),
      deserLoop decK decV k c0
        ((List.range' start k).flatMap
          (fun j => (encK (ks.getD j none)).1 ++ (encV (vs.getD j none)).1) ++ extra) =
        some ({ c0 with
                keys := c0.keys ++ (List.range' start k).map (fun j => ks.getD j none)
                values := c0.values ++ (List.range' start k).map (fun j => vs.getD j none) },
              extra) := by
  intro k
  induction k with
  | zero =>
    intro start c0 extra
    simp [deserLoop]
  | succ k ih =>
    intro start c0 extra
    rw [List.range'_succ, List.flatMap_cons, List.append_assoc, List.append_assoc]
    rw [deserLoop_step (hdecK _ _) (hdecV _ _)]
    rw [ih]
    simp [List.append_assoc]

lemma zip_fst_snd {γ δ : Type} (m : List (γ × δ)) :
    (m.map Prod.fst).zip (m.map Prod.snd) = m := by
  induction m with
  | nil => rfl
  | cons p rest ih => simp [ih]

lemma append_datum_size (c : MapColumn α β) (m : List (Option α × Option β))
    (h : WellFormed c) :
    (append_datum c m).size = c.size + 1 := by
  have hlen := h.length_pos
  show (c.offsets ++ [c.offsets.getLastD 0 + m.length]).length - 1 = c.offsets.length - 1 + 1
  rw [List.length_append]
  simp
  omega

lemma WellFormed.append_datum_pres {c : MapColumn α β} (h : WellFormed c)
    (m : List (Option α × Option β)) : WellFormed (append_datum c m) := by
  have hlen := h.length_pos
  refine ⟨?_, ?_, ?_, ?_, ?_⟩
  · show c.offsets ++ [c.offsets.getLastD 0 + m.length] ≠ []
    intro hemp
    exact h.1 (List.append_eq_nil.mp hemp).1
  · show (c.offsets ++ [c.offsets.getLastD 0 + m.length]).getD 0 0 = 0
    rw [List.getD_append _ _ _ _ hlen]
    exact h.2.1
  · intro a ha
    have e0 : (append_datum c m).offsets =
        c.offsets ++ [c.offsets.getLastD 0 + m.length] := rfl
    rw [e0, List.length_append, List.length_singleton] at ha
    show (c.offsets ++ [c.offsets.getLastD 0 + m.length]).getD a 0 ≤
      (c.offsets ++ [c.offsets.getLastD 0 + m.length]).getD (a + 1) 0
    have ha' : a < c.offsets.length := by omega
    rcases Nat.lt_or_ge (a + 1) c.offsets.length with hcase | hcase
    · rw [List.getD_append _ _ _ _ (by omega), List.getD_append _ _ _ _ hcase]
      exact h.2.2.1 a (by omega)
    · have hae : a + 1 = c.offsets.length := by omega
      rw [List.getD_append _ _ _ _ ha', List.getD_append_right _ _ _ _ (by omega)]
      have e1 : a + 1 - c.offsets.length = 0 := by omega
      rw [e1]
      show c.offsets.getD a 0 ≤ c.offsets.getLastD 0 + m.length
      have : c.offsets.getD a 0 ≤ c.backOff := h.getD_le_back ha'
      unfold backOff at this
      omega
  · show (c.offsets ++ [c.offsets.getLastD 0 + m.length]).getLastD 0 =
      (c.keys ++ m.map Prod.fst).length
    rw [List.getLastD_concat, List.length_append, List.length_map]
    have := h.keys_len
    unfold backOff at this
    omega
  · show (c.offsets ++ [c.offsets.getLastD 0 + m.length]).getLastD 0 =
      (c.values ++ m.map Prod.snd).length
    rw [List.getLastD_concat, List.length_append, List.length_map]
    have := h.values_len
    unfold backOff at this
    omega

lemma append_datum_rowOf_new (c : MapColumn α β) (m : List (Option α × Option β))
    (h : WellFormed c) :
    rowOf (append_datum c m) c.size = m := by
  have hlen := h.length_pos
  unfold rowOf rowSize
  have e1 : (append_datum c m).offsets.getD c.size 0 = c.backOff := by
    show (c.offsets ++ [c.offsets.getLastD 0 + m.length]).getD c.size 0 = c.backOff
    rw [List.getD_append _ _ _ _ (by unfold size; omega)]
    exact h.back_eq_getD.symm
  have e2 : (append_datum c m).offsets.getD (c.size + 1) 0 = c.backOff + m.length := by
    show (c.offsets ++ [c.offsets.getLastD 0 + m.length]).getD (c.size + 1) 0 =
      c.backOff + m.length
    rw [List.getD_append_right _ _ _ _ (by unfold size; omega)]
    have e : c.size + 1 - c.offsets.length = 0 := by unfold size; omega
    rw [e]
    rfl
  rw [e1, e2]
  have e3 : c.backOff + m.length - c.backOff = m.length := by omega
  rw [e3]
  have ekeys : ((append_datum c m).keys.drop c.backOff).take m.length = m.map Prod.fst := by
    show ((c.keys ++ m.map Prod.fst).drop c.backOff).take m.length = m.map Prod.fst
    rw [List.drop_left' h.keys_len]
    have e : (m.map Prod.fst).length = m.length := List.length_map _ _
    rw [← e, List.take_length]
  have evals : ((append_datum c m).values.drop c.backOff).take m.length = m.map Prod.snd := by
    show ((c.values ++ m.map Prod.snd).drop c.backOff).take m.length = m.map Prod.snd
    rw [List.drop_left' h.values_len]
    have e : (m.map Prod.snd).length = m.length := List.length_map _ _
    rw [← e, List.take_length]
  rw [ekeys, evals, zip_fst_snd]

lemma append_datum_rows (c : MapColumn α β) (m : List (Option α × Option β))
    (h : WellFormed c) :
    rows (append_datum c m) = rows c ++ [m] := by
  unfold rows
  rw [append_datum_size c m h, List.range_succ, List.map_append]
  congr 1
  ·  apply List.map_congr_left
     intro j hj
     exact @rowOf_extend α β c (append_datum c m) (m.map Prod.fst) (m.map Prod.snd)
       [c.offsets.getLastD 0 + m.length] h rfl rfl rfl j (List.mem_range.mp hj)
  ·  rw [List.map_cons, List.map_nil, append_datum_rowOf_new c m h]

lemma deserialize_step {decK : List Nat → Option (Option α × List Nat)}
    {decV : List Nat → Option (Option β × List Nat)} {c : MapColumn α β}
    {pos pos1 : List Nat} {m : Nat}
    (h : decodeU32 pos = some (m, pos1)) :
    deserialize_and_append decK decV c pos =
      deserLoop decK decV m
        { c with offsets := c.offsets ++ [c.offsets.getLastD 0 + m] } pos1 := by
  show (match decodeU32 pos with
    | none => none
    | some (map_size, p1) =>
      deserLoop decK decV map_size
        { c with offsets := c.offsets ++ [c.offsets.getLastD 0 + map_size] } p1) = _
  rw [h]

lemma rowOf_parts {c : MapColumn α β} {idx : Nat} (h : WellFormed c) (hidx : idx < c.size) :
    (rowOf c idx).length = rowSize c.offsets idx ∧
    (rowOf c idx).map Prod.fst =
      (c.keys.drop (c.offsets.getD idx 0)).take (rowSize c.offsets idx) ∧
    (rowOf c idx).map Prod.snd =
      (c.values.drop (c.offsets.getD idx 0)).take (rowSize c.offsets idx) := by
  have hlen := h.length_pos
  have hidx1 : idx + 1 < c.offsets.length := by unfold size at hidx; omega
  have hb1 : c.offsets.getD idx 0 ≤ c.offsets.getD (idx + 1) 0 :=
    h.mono (by omega) hidx1
  have hb2 : c.offsets.getD (idx + 1) 0 ≤ c.backOff := h.getD_le_back hidx1
  have hkl := h.keys_len
  have hvl := h.values_len
  have lenk : ((c.keys.drop (c.offsets.getD idx 0)).take (rowSize c.offsets idx)).length =
      rowSize c.offsets idx := by
    rw [List.length_take, List.length_drop]
    unfold rowSize
    omega
  have lenv : ((c.values.drop (c.offsets.getD idx 0)).take (rowSize c.offsets idx)).length =
      rowSize c.offsets idx := by
    rw [List.length_take, List.length_drop]
    unfold rowSize
    omega
  refine ⟨?_, ?_, ?_⟩
  · show (((c.keys.drop (c.offsets.getD idx 0)).take (rowSize c.offsets idx)).zip
      ((c.values.drop (c.offsets.getD idx 0)).take (rowSize c.offsets idx))).length =
      rowSize c.offsets idx
    rw [List.length_zip, lenk, lenv]
    omega
  · show (((c.keys.drop (c.offsets.getD idx 0)).take (rowSize c.offsets idx)).zip
      ((c.values.drop (c.offsets.getD idx 0)).take (rowSize c.offsets idx))).map Prod.fst = _
    exact List.map_fst_zip _ _ (by rw [lenk, lenv])
  · show (((c.keys.drop (c.offsets.getD idx 0)).take (rowSize c.offsets idx)).zip
      ((c.values.drop (c.offsets.getD idx 0)).take (rowSize c.offsets idx))).map Prod.snd = _
    exact List.map_snd_zip _ _ (by rw [lenk, lenv])

/-- C2: serialize(idx) writes the u32 cardinality followed by each key and
value of the row in storage order, returning a byte count equal to the
bytes written and to serialize_size(idx); deserialize_and_append on the
produced bytes appends a row equal to the original (for any cardinality,
zero included) and returns the position one past the consumed bytes.  The
child codecs are parameters constrained by the spec's self-describing
child contract. -/
theorem serialize_deserialize_roundtrip
    (c : MapColumn α β) (idx : Nat)
    (encK : Option α → List Nat × Nat) (encV : Option β → List Nat × Nat)
    (decK : List Nat → Option (Option α × List Nat))
    (decV : List Nat → Option (Option β × List Nat))
    (szK : Option α → Nat) (szV : Option β → Nat) (extra : List Nat)
    (h : WellFormed c) (hidx : idx < c.size)
    (hcard : rowSize c.offsets idx < 4294967296)
    (hdecK : ∀ e rest, decK ((encK e).1 ++ rest) = some (e, rest))
    (hdecV : ∀ e rest, decV ((encV e).1 ++ rest) = some (e, rest))
    (hlenK : ∀ e, (encK e).2 = (encK e).1.length)
    (hlenV : ∀ e, (encV e).2 = (encV e).1.length)
    (hszK : ∀ e, szK e = (encK e).1.length)
    (hszV : ∀ e, szV e = (encV e).1.length) :
    (serialize encK encV c idx).1.length = (serialize encK encV c idx).2 ∧
    serialize_size szK szV c idx = (serialize encK encV c idx).2 ∧
    deserialize_and_append decK decV c ((serialize encK encV c idx).1 ++ extra) =
      some (append_datum c (rowOf c idx), extra) ∧
    rows (append_datum c (rowOf c idx)) = rows c ++ [rowOf c idx] := by
  have hlen := h.length_pos
  have hidx1 : idx + 1 < c.offsets.length := by unfold size at hidx; omega
  have hb1 : c.offsets.getD idx 0 ≤ c.offsets.getD (idx + 1) 0 :=
    h.mono (by omega) hidx1
  have hb2 : c.offsets.getD (idx + 1) 0 ≤ c.backOff := h.getD_le_back hidx1
  have hkl := h.keys_len
  have hvl := h.values_len
  have hbound : c.offsets.getD idx 0 + rowSize c.offsets idx ≤ c.keys.length := by
    unfold rowSize
    omega
  have hboundv : c.offsets.getD idx 0 + rowSize c.offsets idx ≤ c.values.length := by
    unfold rowSize
    omega
  have hser := serialize_closed encK encV c idx
  refine ⟨?_, ?_, ?_, append_datum_rows c (rowOf c idx) h⟩
  · rw [hser]
    show (u32le (rowSize c.offsets idx) ++ _).length = _
    rw [List.length_append, List.length_flatMap]
    show 4 + _ = 4 + _
    congr 1
    apply congrArg
    apply List.map_congr_left
    intro i _
    show ((encK (c.keys.getD (c.offsets.getD idx 0 + i) none)).1 ++
        (encV (c.values.getD (c.offsets.getD idx 0 + i) none)).1).length = _
    rw [List.length_append, hlenK, hlenV]
  · rw [hser, serialize_size_closed]
    congr 1
    apply congrArg
    apply List.map_congr_left
    intro i _
    rw [hszK, hszV, hlenK, hlenV]
  · rw [hser]
    show deserialize_and_append decK decV c
      ((u32le (rowSize c.offsets idx) ++ _) ++ extra) = _
    rw [List.append_assoc]
    rw [deserialize_step (decodeU32_u32le (rowSize c.offsets idx) hcard _)]
    rw [flatMap_range_shift
      (fun j => (encK (c.keys.getD j none)).1 ++ (encV (c.values.getD j none)).1)
      (c.offsets.getD idx 0) (rowSize c.offsets idx)]
    rw [deserLoop_roundtrip hdecK hdecV c.keys c.values (rowSize c.offsets idx)
      (c.offsets.getD idx 0) _ extra]
    have hparts := rowOf_parts h hidx
    have ekeys : (List.range' (c.offsets.getD idx 0) (rowSize c.offsets idx)).map
        (fun j => c.keys.getD j none) = (rowOf c idx).map Prod.fst := by
      rw [hparts.2.1, slice_eq_map_getD c.keys _ _ hbound,
          map_range_shift (fun j => c.keys.getD j none)]
    have evals : (List.range' (c.offsets.getD idx 0) (rowSize c.offsets idx)).map
        (fun j => c.values.getD j none) = (rowOf c idx).map Prod.snd := by
      rw [hparts.2.2, slice_eq_map_getD c.values _ _ hboundv,
          map_range_shift (fun j => c.values.getD j none)]
    rw [ekeys, evals]
    unfold append_datum
    rw [hparts.1]

lemma natEnc_dec : ∀ (e : Option Nat) (rest : List Nat),
    natDec ((natEnc e).1 ++ rest) = some (e, rest) := by
  intro e rest
  cases e <;> rfl

lemma natEnc_len : ∀ e : Option Nat, (natEnc e).2 = (natEnc e).1.length := by
  intro e
  cases e <;> rfl

lemma natEncSize_spec : ∀ e : Option Nat, natEncSize e = (natEnc e).1.length :=
  fun _ => rfl

/-- Witness for C2: a column whose row 0 is the empty map and whose row 1
holds two pairs (one with a null value), serialized and deserialized back
with the concrete byte codec. -/
theorem serialize_deserialize_roundtrip_witness :
    (WellFormed ({ keys := [some 7, none], values := [some 1, none],
                   offsets := [0, 0, 2] } : MapColumn Nat Nat) ∧
     0 < ({ keys := [some 7, none], values := [some 1, none],
            offsets := [0, 0, 2] } : MapColumn Nat Nat).size ∧
     deserialize_and_append natDec natDec
        ({ keys := [some 7, none], values := [some 1, none], offsets := [0, 0, 2] })
        ((serialize natEnc natEnc
          ({ keys := [some 7, none], values := [some 1, none], offsets := [0, 0, 2] })
          0).1 ++ [9]) =
       some (append_datum
          ({ keys := [some 7, none], values := [some 1, none], offsets := [0, 0, 2] })
          (rowOf ({ keys := [some 7, none], values := [some 1, none],
                    offsets := [0, 0, 2] }) 0), [9])) ∧
    (1 < ({ keys := [some 7, none], values := [some 1, none],
            offsets := [0, 0, 2] } : MapColumn Nat Nat).size ∧
     deserialize_and_append natDec natDec
        ({ keys := [some 7, none], values := [some 1, none], offsets := [0, 0, 2] })
        ((serialize natEnc natEnc
          ({ keys := [some 7, none], values := [some 1, none], offsets := [0, 0, 2] })
          1).1 ++ []) =
       some (append_datum
          ({ keys := [some 7, none], values := [some 1, none], offsets := [0, 0, 2] })
          (rowOf ({ keys := [some 7, none], values := [some 1, none],
                    offsets := [0, 0, 2] }) 1), [])) :=
  ⟨⟨by decide, by decide,
    (serialize_deserialize_roundtrip
      ({ keys := [some 7, none], values := [some 1, none], offsets := [0, 0, 2] })
      0 natEnc natEnc natDec natDec natEncSize natEncSize [9]
      (by decide) (by decide) (by decide)
      natEnc_dec natEnc_dec natEnc_len natEnc_len
      natEncSize_spec natEncSize_spec).2.2.1⟩,
   ⟨by decide,
    (serialize_deserialize_roundtrip
      ({ keys := [some 7, none], values := [some 1, none], offsets := [0, 0, 2] })
      1 natEnc natEnc natDec natDec natEncSize natEncSize []
      (by decide) (by decide) (by decide)
      natEnc_dec natEnc_dec natEnc_len natEnc_len
      natEncSize_spec natEncSize_spec).2.2.1⟩⟩

lemma lookup_upsert_self [DecidableEq α] (res : List (α × Option β)) (k : α) (v : Option β) :
    List.lookup k (upsert res k v) = some v := by
  induction res with
  | nil => simp [upsert, List.lookup]
  | cons q rest ih =>
    obtain ⟨qk, qv⟩ := q
    by_cases hq : qk = k
    · subst hq
      simp [upsert, List.lookup]
    · have hb : (k == qk) = false := beq_eq_false_iff_ne.mpr (fun hh => hq hh.symm)
      simp [upsert, hq, List.lookup, hb, ih]

lemma lookup_upsert_ne [DecidableEq α] (res : List (α × Option β)) (k0 k : α)
    (v : Option β) (hne : k ≠ k0) :
    List.lookup k (upsert res k0 v) = List.lookup k res := by
  induction res with
  | nil =>
    have hb : (k == k0) = false := beq_eq_false_iff_ne.mpr hne
    simp [upsert, List.lookup, hb]
  | cons q rest ih =>
    obtain ⟨qk, qv⟩ := q
    by_cases hq : qk = k0
    · subst hq
      have hb : (k == qk) = false := beq_eq_false_iff_ne.mpr hne
      simp [upsert, List.lookup, hb]
    · by_cases hk : k = qk
      · subst hk
        simp [upsert, hq, List.lookup]
      · have hb : (k == qk) = false := beq_eq_false_iff_ne.mpr hk
        simp [upsert, hq, List.lookup, hb, ih]

lemma mem_fst_upsert [DecidableEq α] (res : List (α × Option β)) (k0 : α) (v : Option β) :
    ∀ x ∈ (upsert res k0 v).map Prod.fst, x = k0 ∨ x ∈ res.map Prod.fst := by
  induction res with
  | nil =>
    intro x hx
    simp [upsert] at hx
    exact Or.inl hx
  | cons q rest ih =>
    intro x hx
    obtain ⟨qk, qv⟩ := q
    by_cases hq : qk = k0
    · subst hq
      simp [upsert] at hx
      rcases hx with hx | hx
      · exact Or.inl hx
      · exact Or.inr (by simp [hx])
    · simp [upsert, hq] at hx
      rcases hx with hx | hx
      · exact Or.inr (by simp [hx])
      · rcases ih x (by simpa using hx) with h1 | h1
        · exact Or.inl h1
        · exact Or.inr (by simp at h1 ⊢; exact Or.inr h1)

lemma mapFold_lookup [DecidableEq α] (l : List (Option α × Option β)) :
    ∀ k : α, List.lookup k (l.foldl mapStep []) =
      ((l.filter (fun p => p.1 == some k)).getLast?).map Prod.snd := by
  induction l using List.reverseRecOn with
  | nil =>
    intro k
    simp [List.lookup]
  | append_singleton l p ih =>
    intro k
    rw [List.foldl_append, List.foldl_cons, List.foldl_nil, List.filter_append]
    obtain ⟨pk, pv⟩ := p
    cases pk with
    | none =>
      show List.lookup k (l.foldl mapStep []) = _
      rw [ih k]
      have e : List.filter (fun p => p.1 == some k) [((none : Option α), pv)] = [] := by
        simp
      rw [e, List.append_nil]
    | some k0 =>
      show List.lookup k (upsert (l.foldl mapStep []) k0 pv) = _
      by_cases hk : k = k0
      · subst hk
        rw [lookup_upsert_self]
        have e : List.filter (fun p => p.1 == some k) [(some k, pv)] = [(some k, pv)] := by
          simp
        rw [e, List.getLast?_concat]
        rfl
      · rw [lookup_upsert_ne _ _ _ _ hk, ih k]
        have e : List.filter (fun p => p.1 == some k) [(some k0, pv)] = [] := by
          simp
          intro hcon
          exact absurd hcon.symm hk
        rw [e, List.append_nil]

lemma mapFold_keys_sub [DecidableEq α] (l : List (Option α × Option β)) :
    ∀ x ∈ (l.foldl mapStep []).map Prod.fst, some x ∈ l.map Prod.fst := by
  induction l using List.reverseRecOn with
  | nil =>
    intro x hx
    simp at hx
  | append_singleton l p ih =>
    intro x hx
    rw [List.foldl_append, List.foldl_cons, List.foldl_nil] at hx
    obtain ⟨pk, pv⟩ := p
    cases pk with
    | none =>
      have hmem := ih x hx
      rw [List.map_append]
      exact List.mem_append.mpr (Or.inl hmem)
    | some k0 =>
      rcases mem_fst_upsert (l.foldl mapStep []) k0 pv x hx with h1 | h1
      · subst h1
        rw [List.map_append]
        exact List.mem_append.mpr (Or.inr (by simp))
      · have hmem := ih x h1
        rw [List.map_append]
        exact List.mem_append.mpr (Or.inl hmem)

lemma get_eq_fold_row [DecidableEq α] (c : MapColumn α β) (idx : Nat)
    (h : WellFormed c) (hidx : idx < c.size) :
    get c idx = (rowOf c idx).foldl mapStep [] := by
  have hlen := h.length_pos
  have hidx1 : idx + 1 < c.offsets.length := by unfold size at hidx; omega
  have hb1 : c.offsets.getD idx 0 ≤ c.offsets.getD (idx + 1) 0 :=
    h.mono (by omega) hidx1
  have hb2 : c.offsets.getD (idx + 1) 0 ≤ c.backOff := h.getD_le_back hidx1
  have hkl := h.keys_len
  have hvl := h.values_len
  have hrow : rowOf c idx = (List.range (rowSize c.offsets idx)).map
      (fun i => (c.keys.getD (c.offsets.getD idx 0 + i) none,
                 c.values.getD (c.offsets.getD idx 0 + i) none)) := by
    unfold rowOf
    rw [slice_eq_map_getD c.keys _ _ (by unfold rowSize; omega),
        slice_eq_map_getD c.values _ _ (by unfold rowSize; omega),
        List.zip_map']
  rw [hrow, List.foldl_map]
  rfl

/-- C8: get(idx) materializes the logical associative value from exactly
the element range [offsets[idx], offsets[idx+1]): the binding of every key
is the value of the last stored pair of the row carrying that key (later
duplicates overwrite earlier ones), and every key of the result occurs as
a non-null key among the row's stored pairs (null-key pairs are excluded). -/
theorem get_materializes_row [DecidableEq α]
    (c : MapColumn α β) (idx : Nat) (h : WellFormed c) (hidx : idx < c.size) :
    (∀ k : α, List.lookup k (get c idx) =
      (((rowOf c idx).filter (fun p => p.1 == some k)).getLast?).map Prod.snd) ∧
    (∀ x ∈ (get c idx).map Prod.fst, some x ∈ (rowOf c idx).map Prod.fst) := by
  rw [get_eq_fold_row c idx h hidx]
  exact ⟨mapFold_lookup (rowOf c idx), mapFold_keys_sub (rowOf c idx)⟩

/-- Witness for C8: a single-row column holding the pairs
(1, 10), (null, 20), (1, 30); the materialized binding of key 1 is the
last stored value 30 and the null-key pair is invisible. -/
theorem get_materializes_row_witness :
    WellFormed ({ keys := [some 1, none, some 1],
                  values := [some 10, some 20, some 30],
                  offsets := [0, 3] } : MapColumn Nat Nat) ∧
    0 < ({ keys := [some 1, none, some 1], values := [some 10, some 20, some 30],
           offsets := [0, 3] } : MapColumn Nat Nat).size ∧
    List.lookup 1 (get ({ keys := [some 1, none, some 1],
                          values := [some 10, some 20, some 30],
                          offsets := [0, 3] } : MapColumn Nat Nat) 0) =
      (((rowOf ({ keys := [some 1, none, some 1],
                  values := [some 10, some 20, some 30],
                  offsets := [0, 3] } : MapColumn Nat Nat) 0).filter
          (fun p => p.1 == some 1)).getLast?).map Prod.snd :=
  ⟨by decide, by decide,
   (get_materializes_row
      ({ keys := [some 1, none, some 1],
         values := [some 10, some 20, some 30],
         offsets := [0, 3] } : MapColumn Nat Nat)
      0 (by decide) (by decide)).1 1⟩

lemma getD_set_ne (l : List Nat) (n m : Nat) (a : Nat) (h : n ≠ m) :
    (l.set n a).getD m 0 = l.getD m 0 := by
  rw [List.getD_eq_getElem?_getD, List.getD_eq_getElem?_getD, List.getElem?_set,
      if_neg h]

lemma getD_set_self (l : List Nat) (n : Nat) (a : Nat) (h : n < l.length) :
    (l.set n a).getD n 0 = a := by
  rw [List.getD_eq_getElem?_getD, List.getElem?_set, if_pos rfl, if_pos h]
  rfl

lemma markRange_getD (ef : List Bool) (s len x : Nat) :
    (markRange ef s len).getD x false =
      if s ≤ x ∧ x < s + len ∧ x < ef.length then true else ef.getD x false := by
  unfold markRange
  rw [List.getD_eq_getElem?_getD, List.getD_eq_getElem?_getD, List.getElem?_mapIdx]
  rcases Nat.lt_or_ge x ef.length with hx | hx
  · rw [List.getElem?_eq_getElem hx]
    show (if s ≤ x ∧ x < s + len then true else ef[x]) = _
    by_cases hc : s ≤ x ∧ x < s + len
    · rw [if_pos hc, if_pos ⟨hc.1, hc.2, hx⟩]
    · rw [if_neg hc, if_neg (by intro hcon; exact hc ⟨hcon.1, hcon.2.1⟩)]
      rfl
  · rw [List.getElem?_eq_none (by simpa using hx)]
    rw [if_neg (by intro hcon; omega)]
    rfl

lemma markRange_length (ef : List Bool) (s len : Nat) :
    (markRange ef s len).length = ef.length := List.length_mapIdx

lemma sum_rowSize_range' {O : List Nat}
    (hadj : ∀ a < O.length - 1, O.getD a 0 ≤ O.getD (a + 1) 0) :
    ∀ (k a : Nat), a + k < O.length →
      ((List.range' a k).map (rowSize O)).sum = O.getD (a + k) 0 - O.getD a 0 := by
  intro k
  induction k with
  | zero =>
    intro a _
    simp
  | succ k ih =>
    intro a ha
    rw [List.range'_1_concat, List.map_append, List.sum_append, ih a (by omega)]
    have m1 : O.getD a 0 ≤ O.getD (a + k) 0 :=
      getD_mono_of_adj hadj (by omega) (by omega)
    have m2 : O.getD (a + k) 0 ≤ O.getD (a + k + 1) 0 :=
      getD_mono_of_adj hadj (by omega) (by omega)
    show O.getD (a + k) 0 - O.getD a 0 + (rowSize O (a + k) + 0) = _
    unfold rowSize
    have e : a + (k + 1) = a + k + 1 := by omega
    rw [e]
    omega

lemma keptList_mem {f : List Bool} {fr stop j : Nat} :
    j ∈ keptList f fr stop ↔ (fr ≤ j ∧ j < stop ∧ f.getD j false = true) := by
  unfold keptList
  rw [List.mem_filter, List.mem_range']
  constructor
  · rintro ⟨⟨i, hi, rfl⟩, hf⟩
    exact ⟨by omega, by omega, hf⟩
  · rintro ⟨h1, h2, h3⟩
    exact ⟨⟨j - fr, by omega, by omega⟩, h3⟩

lemma keptList_succ {f : List Bool} {fr i : Nat} (h : fr ≤ i) :
    keptList f fr (i + 1) =
      keptList f fr i ++ (if f.getD i false then [i] else []) := by
  unfold keptList
  have e : i + 1 - fr = (i - fr) + 1 := by omega
  rw [e, List.range'_1_concat, List.filter_append]
  congr 1
  have e2 : fr + (i - fr) = i := by omega
  rw [e2]
  by_cases hf : f.getD i false
  · rw [if_pos hf]
    rw [List.getD_eq_getElem?_getD] at hf
    simp [hf]
  · rw [if_neg hf]
    rw [Bool.not_eq_true, List.getD_eq_getElem?_getD] at hf
    simp [hf]

lemma keptList_length_le (f : List Bool) (fr i : Nat) :
    (keptList f fr i).length ≤ i - fr := by
  unfold keptList
  have := List.length_filter_le (fun j => f.getD j false) (List.range' fr (i - fr))
  simpa using this

lemma frLoop_step_true {f : List Bool} {i steps : Nat} {offs : List Nat}
    {ef : List Bool} {ro : Nat} (hf : f.getD i false = true) :
    frLoop f i (steps + 1) (offs, ef, ro) =
      frLoop f (i + 1) steps
        (offs.set (ro + 1) (offs.getD ro 0 + (offs.getD (i + 1) 0 - offs.getD i 0)),
         markRange ef (offs.getD i 0) (offs.getD (i + 1) 0 - offs.getD i 0),
         ro + 1) := by
  show (if f.getD i false = true then
      frLoop f (i + 1) steps
        (offs.set (ro + 1) (offs.getD ro 0 + (offs.getD (i + 1) 0 - offs.getD i 0)),
         markRange ef (offs.getD i 0) (offs.getD (i + 1) 0 - offs.getD i 0),
         ro + 1)
    else frLoop f (i + 1) steps (offs, ef, ro)) = _
  rw [if_pos hf]

lemma frLoop_step_false {f : List Bool} {i steps : Nat} {offs : List Nat}
    {ef : List Bool} {ro : Nat} (hf : f.getD i false = false) :
    frLoop f i (steps + 1) (offs, ef, ro) = frLoop f (i + 1) steps (offs, ef, ro) := by
  show (if f.getD i false = true then
      frLoop f (i + 1) steps
        (offs.set (ro + 1) (offs.getD ro 0 + (offs.getD (i + 1) 0 - offs.getD i 0)),
         markRange ef (offs.getD i 0) (offs.getD (i + 1) 0 - offs.getD i 0),
         ro + 1)
    else frLoop f (i + 1) steps (offs, ef, ro)) = _
  rw [if_neg (by rw [hf]; simp)]

lemma frLoop_pres {f : List Bool} {O : List Nat} {fr stop : Nat}
    (hadj : ∀ a < O.length - 1, O.getD a 0 ≤ O.getD (a + 1) 0)
    (hstop : stop < O.length) :
    ∀ (steps i : Nat) (offs : List Nat) (ef : List Bool) (ro : Nat),
      i + steps = stop → fr ≤ i →
      frInv f O fr stop i (offs, ef, ro) →
      frInv f O fr stop stop (frLoop f i steps (offs, ef, ro)) := by
  intro steps
  induction steps with
  | zero =>
    intro i offs ef ro hi _ hinv
    have he : i = stop := by omega
    subst he
    exact hinv
  | succ steps ih =>
    intro i offs ef ro hi hfri hinv
    have hA : ro = fr + (keptList f fr i).length := hinv.1
    have hB : offs.length = O.length := hinv.2.1
    have hC : ∀ x, x ≤ fr → offs.getD x 0 = O.getD x 0 := hinv.2.2.1
    have hD : ∀ m, 1 ≤ m → m ≤ (keptList f fr i).length →
        offs.getD (fr + m) 0 =
          O.getD fr 0 + (((keptList f fr i).take m).map (rowSize O)).sum := hinv.2.2.2.1
    have hE : ∀ x, ro < x → offs.getD x 0 = O.getD x 0 := hinv.2.2.2.2.1
    have hF : ef.length = O.getD stop 0 := hinv.2.2.2.2.2.1
    have hG : ∀ x, ef.getD x false = true ↔
        ∃ j ∈ keptList f fr i, O.getD j 0 ≤ x ∧ x < O.getD (j + 1) 0 :=
      hinv.2.2.2.2.2.2
    have hkle : (keptList f fr i).length ≤ i - fr := keptList_length_le f fr i
    have hro_le : ro ≤ i := by omega
    have histop : i < stop := by omega
    by_cases hf : f.getD i false = true
    · -- the row is kept
      have hk1 : keptList f fr (i + 1) = keptList f fr i ++ [i] := by
        rw [keptList_succ hfri, if_pos hf]
      have hoffs_i : offs.getD i 0 = O.getD i 0 := by
        rcases Nat.lt_or_ge ro i with hlt | hge
        · exact hE i hlt
        · have hroi : ro = i := by omega
          rcases Nat.eq_zero_or_pos (keptList f fr i).length with h0 | hpos
          · have he : i = fr := by omega
            subst he
            exact hC i (Nat.le_refl i)
          · have hm := hD (keptList f fr i).length hpos (Nat.le_refl _)
            rw [List.take_length] at hm
            have hK : (keptList f fr i).length = i - fr := by omega
            rw [show fr + (keptList f fr i).length = i from by omega] at hm
            have hall : keptList f fr i = List.range' fr (i - fr) := by
              have hlen2 : (List.range' fr (i - fr)).length = i - fr := by simp
              unfold keptList at hK ⊢
              exact List.filter_eq_self.mpr
                (List.filter_length_eq_length.mp (by rw [hK, hlen2]))
            rw [hall, sum_rowSize_range' hadj (i - fr) fr (by omega)] at hm
            have e : fr + (i - fr) = i := by omega
            rw [e] at hm
            have hfr_le_i : O.getD fr 0 ≤ O.getD i 0 :=
              getD_mono_of_adj hadj (by omega) (by omega)
            omega
      have hoffs_i1 : offs.getD (i + 1) 0 = O.getD (i + 1) 0 := hE (i + 1) (by omega)
      have hback : offs.getD ro 0 =
          O.getD fr 0 + ((keptList f fr i).map (rowSize O)).sum := by
        rcases Nat.eq_zero_or_pos (keptList f fr i).length with h0 | hpos
        · have hke : keptList f fr i = [] := List.length_eq_zero.mp h0
          rw [hke]
          have he2 : ro = fr := by omega
          rw [he2, hC fr (Nat.le_refl fr)]
          simp
        · have hm := hD (keptList f fr i).length hpos (Nat.le_refl _)
          rw [List.take_length] at hm
          rw [hA]
          exact hm
      have hOii1 : O.getD i 0 ≤ O.getD (i + 1) 0 :=
        getD_mono_of_adj hadj (by omega) (by omega)
      have hOi1stop : O.getD (i + 1) 0 ≤ O.getD stop 0 :=
        getD_mono_of_adj hadj (by omega) (by omega)
      rw [frLoop_step_true hf, hoffs_i, hoffs_i1]
      refine ih (i + 1) _ _ _ (by omega) (by omega) ⟨?_, ?_, ?_, ?_, ?_, ?_, ?_⟩
      · show ro + 1 = fr + (keptList f fr (i + 1)).length
        rw [hk1, List.length_append]
        simp
        omega
      · show (offs.set (ro + 1) _).length = O.length
        rw [List.length_set]
        exact hB
      · intro x hx
        show (offs.set (ro + 1) _).getD x 0 = O.getD x 0
        rw [getD_set_ne _ _ _ _ (by omega)]
        exact hC x hx
      · intro m h1 hm2
        rw [hk1, List.length_append, List.length_singleton] at hm2
        show (offs.set (ro + 1) _).getD (fr + m) 0 =
          O.getD fr 0 + (((keptList f fr (i + 1)).take m).map (rowSize O)).sum
        rcases Nat.lt_or_ge m ((keptList f fr i).length + 1) with hmK | hmK
        · -- m at most the old kept count : untouched entry
          have hne : ro + 1 ≠ fr + m := by omega
          rw [getD_set_ne _ _ _ _ hne, hk1, List.take_append_eq_append_take,
              Nat.sub_eq_zero_of_le (by omega), List.take_zero, List.append_nil]
          exact hD m h1 (by omega)
        · -- m = old kept count + 1 : the freshly written entry
          have hmeq : m = (keptList f fr i).length + 1 := by omega
          have hidx : fr + m = ro + 1 := by omega
          rw [hidx, getD_set_self _ _ _ (by rw [hB]; omega), hback, hk1, hmeq]
          rw [show (keptList f fr i).length + 1 =
            (keptList f fr i ++ [i]).length by simp]
          have e2 : (([i] : List Nat).map (rowSize O)).sum =
              O.getD (i + 1) 0 - O.getD i 0 := by
            simp [rowSize]
          rw [List.take_length, List.map_append, List.sum_append, e2]
          omega
      · intro x hx
        have hx2 : ro + 1 < x := hx
        show (offs.set (ro + 1) _).getD x 0 = O.getD x 0
        rw [getD_set_ne _ _ _ _ (by omega)]
        exact hE x (by omega)
      · show (markRange ef (O.getD i 0) (O.getD (i + 1) 0 - O.getD i 0)).length =
          O.getD stop 0
        rw [markRange_length]
        exact hF
      · intro x
        show (markRange ef (O.getD i 0) (O.getD (i + 1) 0 - O.getD i 0)).getD x false =
          true ↔ _
        rw [markRange_getD, hF]
        constructor
        · intro hx
          by_cases hcond : O.getD i 0 ≤ x ∧ x < O.getD i 0 +
              (O.getD (i + 1) 0 - O.getD i 0) ∧ x < O.getD stop 0
          · refine ⟨i, by rw [hk1]; simp, hcond.1, by omega⟩
          · rw [if_neg hcond] at hx
            obtain ⟨j, hj1, hj2⟩ := (hG x).mp hx
            exact ⟨j, by rw [hk1]; exact List.mem_append_left _ hj1, hj2⟩
        · rintro ⟨j, hj1, hj2, hj3⟩
          rw [hk1] at hj1
          rcases List.mem_append.mp hj1 with hj | hj
          · have hold : ef.getD x false = true := (hG x).mpr ⟨j, hj, hj2, hj3⟩
            by_cases hcond : O.getD i 0 ≤ x ∧ x < O.getD i 0 +
                (O.getD (i + 1) 0 - O.getD i 0) ∧ x < O.getD stop 0
            · rw [if_pos hcond]
            · rw [if_neg hcond]
              exact hold
          · have hje : j = i := by simpa using hj
            subst hje
            rw [if_pos ⟨hj2, by omega, by omega⟩]
    · -- the row is dropped
      have hf2 : f.getD i false = false := by
        rw [Bool.not_eq_true] at hf
        exact hf
      have hk1 : keptList f fr (i + 1) = keptList f fr i := by
        rw [keptList_succ hfri, if_neg (by rw [hf2]; simp), List.append_nil]
      rw [frLoop_step_false hf2]
      refine ih (i + 1) _ _ _ (by omega) (by omega) ?_
      show frInv f O fr stop (i + 1) (offs, ef, ro)
      unfold frInv
      rw [hk1]
      exact ⟨hA, hB, hC, hD, hE, hF, hG⟩

lemma filterMap_congr_mem {γ δ : Type} {l : List γ} {f g : γ → Option δ}
    (h : ∀ a ∈ l, f a = g a) : l.filterMap f = l.filterMap g := by
  induction l with
  | nil => rfl
  | cons x xs ih =>
    rw [List.filterMap_cons, List.filterMap_cons, h x (by simp),
        ih (fun a ha => h a (by simp [ha]))]

lemma filterMap_getElem_slice {γ : Type} (l : List (Option γ)) (s m : Nat)
    (h : s + m ≤ l.length) :
    (List.range m).filterMap (fun j => l[s + j]?) = (l.drop s).take m := by
  induction m with
  | zero => simp
  | succ k ih =>
    rw [List.range_succ, List.filterMap_append, ih (by omega), List.take_succ]
    congr 1
    show List.filterMap (fun j => l[s + j]?) [k] = _
    rw [List.filterMap_cons, List.filterMap_nil, List.getElem?_drop,
        List.getElem?_eq_getElem (show s + k < l.length by omega)]
    rfl

lemma keptList_head {f : List Bool} {i stop : Nat} (h : i < stop) :
    keptList f i stop =
      (if f.getD i false then [i] else []) ++ keptList f (i + 1) stop := by
  unfold keptList
  rw [show stop - i = (stop - (i + 1)) + 1 from by omega, List.range'_succ,
      List.filter_cons]
  by_cases hf : f.getD i false = true
  · have hf2 : f[i]?.getD false = true := by
      rw [← List.getD_eq_getElem?_getD]
      exact hf
    simp [hf2]
  · have hf2 : f[i]?.getD false = false := by
      rw [← List.getD_eq_getElem?_getD]
      simpa using hf
    simp [hf2]

lemma childFilter_window {γ : Type} {f : List Bool} {O : List Nat} {fr stop : Nat}
    {ef : List Bool} (l : List (Option γ))
    (hadj : ∀ a < O.length - 1, O.getD a 0 ≤ O.getD (a + 1) 0)
    (hstop : stop < O.length)
    (hlen : l.length = O.getD stop 0)
    (hG : ∀ x, ef.getD x false = true ↔
      ∃ j ∈ keptList f fr stop, O.getD j 0 ≤ x ∧ x < O.getD (j + 1) 0) :
    ∀ d i, i + d = stop → fr ≤ i →
      (List.range (O.getD stop 0 - O.getD i 0)).filterMap
        (fun jx => if ef.getD (O.getD i 0 + jx) false then l[O.getD i 0 + jx]?
          else none) =
      (keptList f i stop).flatMap
        (fun j => (l.drop (O.getD j 0)).take (rowSize O j)) := by
  intro d
  induction d with
  | zero =>
    intro i hi _
    have he : i = stop := by omega
    subst he
    simp [keptList]
  | succ d ih =>
    intro i hi hfri
    have histop : i < stop := by omega
    have hOii1 : O.getD i 0 ≤ O.getD (i + 1) 0 :=
      getD_mono_of_adj hadj (by omega) (by omega)
    have hOi1stop : O.getD (i + 1) 0 ≤ O.getD stop 0 :=
      getD_mono_of_adj hadj (by omega) (by omega)
    rw [show O.getD stop 0 - O.getD i 0 =
      rowSize O i + (O.getD stop 0 - O.getD (i + 1) 0) from by unfold rowSize; omega]
    rw [List.range_add, List.filterMap_append, List.filterMap_map]
    rw [keptList_head histop, List.flatMap_append]
    congr 1
    · -- the slab of row i
      by_cases hf : f.getD i false = true
      · rw [if_pos hf]
        have hmark : ∀ jx ∈ List.range (rowSize O i),
            (if ef.getD (O.getD i 0 + jx) false then l[O.getD i 0 + jx]? else none) =
              l[O.getD i 0 + jx]? := by
          intro jx hjx
          have hjxlt : jx < rowSize O i := List.mem_range.mp hjx
          have hef : ef.getD (O.getD i 0 + jx) false = true := by
            refine (hG _).mpr ⟨i, keptList_mem.mpr ⟨hfri, histop, hf⟩, by omega, ?_⟩
            unfold rowSize at hjxlt
            omega
          rw [hef]
          rfl
        rw [filterMap_congr_mem hmark,
            filterMap_getElem_slice l (O.getD i 0) (rowSize O i)
              (by unfold rowSize at *; omega)]
        simp
      · rw [if_neg hf]
        have hmark : ∀ jx ∈ List.range (rowSize O i),
            (if ef.getD (O.getD i 0 + jx) false then l[O.getD i 0 + jx]? else none) =
              none := by
          intro jx hjx
          have hjxlt : jx < rowSize O i := List.mem_range.mp hjx
          have hef : ¬ ef.getD (O.getD i 0 + jx) false = true := by
            intro hcon
            obtain ⟨j, hjm, hj1, hj2⟩ := (hG _).mp hcon
            obtain ⟨hjf, hjs, hjk⟩ := keptList_mem.mp hjm
            rcases Nat.lt_trichotomy j i with hj | hj | hj
            · have : O.getD (j + 1) 0 ≤ O.getD i 0 :=
                getD_mono_of_adj hadj (by omega) (by omega)
              omega
            · subst hj
              exact hf hjk
            · have : O.getD (i + 1) 0 ≤ O.getD j 0 :=
                getD_mono_of_adj hadj (by omega) (by omega)
              unfold rowSize at hjxlt
              omega
          rw [if_neg hef]
        rw [List.filterMap_eq_nil.mpr hmark]
        rfl
    · -- the remaining window
      refine Eq.trans (filterMap_congr_mem ?_) (ih (i + 1) (by omega) (by omega))
      intro jx _
      show (if ef.getD (O.getD i 0 + (rowSize O i + jx)) false then
          l[O.getD i 0 + (rowSize O i + jx)]? else none) =
        (if ef.getD (O.getD (i + 1) 0 + jx) false then
          l[O.getD (i + 1) 0 + jx]? else none)
      have e : O.getD i 0 + (rowSize O i + jx) = O.getD (i + 1) 0 + jx := by
        unfold rowSize
        omega
      rw [e]

lemma slice_take {γ : Type} (l : List γ) (s u v : Nat) (h : u + v ≤ s) :
    ((l.take s).drop u).take v = (l.drop u).take v := by
  rw [List.drop_take, List.take_take, Nat.min_def, if_pos (by omega)]

lemma WellFormed.takeRows_pres {c : MapColumn α β} (h : WellFormed c) {fr : Nat}
    (hfr : fr ≤ c.size) : WellFormed (takeRows c fr) := by
  have hlen := h.length_pos
  have hfr1 : fr + 1 ≤ c.offsets.length := by unfold size at hfr; omega
  have hs_le : c.offsets.getD fr 0 ≤ c.backOff := h.getD_le_back (by omega)
  have htake_ne : c.offsets.take (fr + 1) ≠ [] := by
    have h0 : 0 < (c.offsets.take (fr + 1)).length := by
      rw [List.length_take]
      omega
    exact List.length_pos.mp h0
  have hback : (c.offsets.take (fr + 1)).getLastD 0 = c.offsets.getD fr 0 := by
    rw [getLastD_eq_getD _ _ htake_ne, List.length_take]
    rw [List.getD_eq_getElem?_getD, List.getElem?_take, if_pos (by omega),
        ← List.getD_eq_getElem?_getD]
    congr 1
    omega
  refine ⟨htake_ne, ?_, ?_, ?_, ?_⟩
  · show (c.offsets.take (fr + 1)).getD 0 0 = 0
    rw [List.getD_eq_getElem?_getD, List.getElem?_take, if_pos (by omega),
        ← List.getD_eq_getElem?_getD]
    exact h.2.1
  · intro a ha
    have ha2 : a < (c.offsets.take (fr + 1)).length - 1 := ha
    rw [List.length_take] at ha2
    show (c.offsets.take (fr + 1)).getD a 0 ≤ (c.offsets.take (fr + 1)).getD (a + 1) 0
    rw [List.getD_eq_getElem?_getD, List.getElem?_take, if_pos (by omega),
        ← List.getD_eq_getElem?_getD]
    rw [List.getD_eq_getElem?_getD (c.offsets.take (fr + 1)), List.getElem?_take,
        if_pos (by omega), ← List.getD_eq_getElem?_getD]
    exact h.2.2.1 a (by omega)
  · show (c.offsets.take (fr + 1)).getLastD 0 =
      (c.keys.take (c.offsets.getD fr 0)).length
    rw [hback, List.length_take]
    have := h.keys_len
    omega
  · show (c.offsets.take (fr + 1)).getLastD 0 =
      (c.values.take (c.offsets.getD fr 0)).length
    rw [hback, List.length_take]
    have := h.values_len
    omega

lemma takeRows_size {c : MapColumn α β} (h : WellFormed c) {fr : Nat}
    (hfr : fr ≤ c.size) : (takeRows c fr).size = fr := by
  have hlen := h.length_pos
  show (c.offsets.take (fr + 1)).length - 1 = fr
  rw [List.length_take]
  unfold size at hfr
  omega

lemma takeRows_rows {c : MapColumn α β} (h : WellFormed c) {fr : Nat}
    (hfr : fr ≤ c.size) :
    rows (takeRows c fr) = (List.range fr).map (rowOf c) := by
  have hlen := h.length_pos
  have hfr1 : fr + 1 ≤ c.offsets.length := by unfold size at hfr; omega
  unfold rows
  rw [takeRows_size h hfr]
  apply List.map_congr_left
  intro j hj
  have hjfr : j < fr := List.mem_range.mp hj
  have hoj : (takeRows c fr).offsets.getD j 0 = c.offsets.getD j 0 := by
    show (c.offsets.take (fr + 1)).getD j 0 = _
    rw [List.getD_eq_getElem?_getD, List.getElem?_take, if_pos (by omega),
        ← List.getD_eq_getElem?_getD]
  have hoj1 : (takeRows c fr).offsets.getD (j + 1) 0 = c.offsets.getD (j + 1) 0 := by
    show (c.offsets.take (fr + 1)).getD (j + 1) 0 = _
    rw [List.getD_eq_getElem?_getD, List.getElem?_take, if_pos (by omega),
        ← List.getD_eq_getElem?_getD]
  have hm1 : c.offsets.getD j 0 ≤ c.offsets.getD (j + 1) 0 :=
    h.mono (by omega) (by omega)
  have hm2 : c.offsets.getD (j + 1) 0 ≤ c.offsets.getD fr 0 :=
    h.mono (by omega) (by omega)
  unfold rowOf rowSize
  rw [hoj, hoj1]
  show ((((c.keys.take (c.offsets.getD fr 0))).drop (c.offsets.getD j 0)).take
      (c.offsets.getD (j + 1) 0 - c.offsets.getD j 0)).zip
      ((((c.values.take (c.offsets.getD fr 0))).drop (c.offsets.getD j 0)).take
      (c.offsets.getD (j + 1) 0 - c.offsets.getD j 0)) = _
  rw [slice_take _ _ _ _ (by omega), slice_take _ _ _ _ (by omega)]

lemma appendRowsList_keys (base src : MapColumn α β) (js : List Nat) :
    (appendRowsList base src js).keys = base.keys ++ js.flatMap
      (fun j => (src.keys.drop (src.offsets.getD j 0)).take
        (src.offsets.getD (j + 1) 0 - src.offsets.getD j 0)) := by
  induction js generalizing base with
  | nil => simp [appendRowsList]
  | cons j js ih =>
    show (appendRowsList (append base src j 1) src js).keys = _
    rw [ih, append_keys, List.flatMap_cons, List.append_assoc]

lemma appendRowsList_values (base src : MapColumn α β) (js : List Nat) :
    (appendRowsList base src js).values = base.values ++ js.flatMap
      (fun j => (src.values.drop (src.offsets.getD j 0)).take
        (src.offsets.getD (j + 1) 0 - src.offsets.getD j 0)) := by
  induction js generalizing base with
  | nil => simp [appendRowsList]
  | cons j js ih =>
    show (appendRowsList (append base src j 1) src js).values = _
    rw [ih, append_values, List.flatMap_cons, List.append_assoc]

lemma appendRowsList_offsets (base src : MapColumn α β) (js : List Nat) :
    (appendRowsList base src js).offsets =
      js.foldl (fun o j => o ++ [o.getLastD 0 + rowSize src.offsets j])
        base.offsets := by
  induction js generalizing base with
  | nil => rfl
  | cons j js ih =>
    show (appendRowsList (append base src j 1) src js).offsets = _
    rw [ih]
    rfl

lemma foldl_concat_sums (g : Nat → Nat) (js : List Nat) :
    ∀ (b : List Nat),
      js.foldl (fun o j => o ++ [o.getLastD 0 + g j]) b =
        b ++ (List.range js.length).map
          (fun t => b.getLastD 0 + ((js.take (t + 1)).map g).sum) := by
  induction js with
  | nil =>
    intro b
    simp
  | cons j js ih =>
    intro b
    show js.foldl (fun o j => o ++ [o.getLastD 0 + g j]) (b ++ [b.getLastD 0 + g j]) = _
    rw [ih, List.getLastD_concat]
    rw [show (j :: js).length = js.length + 1 from rfl, List.range_succ_eq_map]
    rw [List.map_cons, List.map_map, List.append_assoc]
    congr 1
    rw [List.singleton_append]
    congr 1
    apply List.map_congr_left
    intro t _
    show b.getLastD 0 + g j + ((js.take (t + 1)).map g).sum =
      b.getLastD 0 + (((j :: js).take (Nat.succ t + 1)).map g).sum
    rw [show Nat.succ t + 1 = (t + 1) + 1 from rfl, List.take_succ_cons,
        List.map_cons, List.sum_cons]
    omega

lemma appendRowsList_rows_wf {src : MapColumn α β} (hs : WellFormed src) :
    ∀ (js : List Nat) (base : MapColumn α β), WellFormed base →
      (∀ j ∈ js, j < src.size) →
      rows (appendRowsList base src js) = rows base ++ js.map (rowOf src) ∧
      WellFormed (appendRowsList base src js) := by
  intro js
  induction js with
  | nil =>
    intro base hb _
    exact ⟨by simp [appendRowsList], hb⟩
  | cons j js ih =>
    intro base hb hjs
    have hj : j < src.size := hjs j (by simp)
    have hb' : WellFormed (append base src j 1) := hb.append_pres hs (by omega)
    have hrows' : rows (append base src j 1) = rows base ++ [rowOf src j] := by
      rw [append_rows hb hs (by omega)]
      have hsl : sliceRows src j 1 = [rowOf src j] := by
        show (List.range 1).map (fun i => rowOf src (j + i)) = [rowOf src j]
        rw [show List.range 1 = [0] from rfl, List.map_cons, List.map_nil,
            Nat.add_zero]
      rw [hsl]
    obtain ⟨ihr, ihw⟩ := ih (append base src j 1) hb' (fun x hx => hjs x (by simp [hx]))
    refine ⟨?_, ihw⟩
    show rows (appendRowsList (append base src j 1) src js) = _
    rw [ihr, hrows', List.map_cons, List.append_assoc, List.singleton_append]

lemma getLastD_take (l : List Nat) (n : Nat) (h : n + 1 ≤ l.length) :
    (l.take (n + 1)).getLastD 0 = l.getD n 0 := by
  have hne : l.take (n + 1) ≠ [] := by
    have h0 : 0 < (l.take (n + 1)).length := by
      rw [List.length_take]
      omega
    exact List.length_pos.mp h0
  rw [getLastD_eq_getD _ _ hne, List.length_take]
  rw [List.getD_eq_getElem?_getD, List.getElem?_take, if_pos (by omega),
      ← List.getD_eq_getElem?_getD]
  congr 1
  omega

lemma childResize_self {γ : Type} (l : List (Option γ)) :
    childResize l l.length = l := by
  unfold childResize
  rw [List.take_length, Nat.sub_self]
  simp

lemma filter_range_eq (c : MapColumn α β) (f : List Bool) (fr stop : Nat)
    (hc : WellFormed c) (hfr : fr ≤ stop) (hstop : stop = c.size) :
    (filter_range c f fr stop).1 =
      appendRowsList (takeRows c fr) c (keptList f fr stop) ∧
    (filter_range c f fr stop).2 = fr + (keptList f fr stop).length := by
  have hlen := hc.length_pos
  have hadj : ∀ a < c.offsets.length - 1,
      c.offsets.getD a 0 ≤ c.offsets.getD (a + 1) 0 := hc.2.2.1
  have hstop' : stop < c.offsets.length := by
    unfold size at hstop
    omega
  have hk0 : keptList f fr fr = [] := by
    unfold keptList
    simp
  have hinit : frInv f c.offsets fr stop fr
      (c.offsets, List.replicate (c.offsets.getD stop 0) false, fr) := by
    refine ⟨?_, rfl, ?_, ?_, ?_, ?_, ?_⟩
    · show fr = fr + (keptList f fr fr).length
      rw [hk0]
      rfl
    · intro x _
      rfl
    · intro m h1 h2
      rw [hk0] at h2
      simp at h2
      omega
    · intro x _
      rfl
    · show (List.replicate (c.offsets.getD stop 0) false).length = c.offsets.getD stop 0
      simp
    · intro x
      constructor
      · intro hx
        exfalso
        rw [List.getD_eq_getElem?_getD, List.getElem?_replicate] at hx
        by_cases hxe : x < c.offsets.getD stop 0
        · rw [if_pos hxe] at hx
          simp at hx
        · rw [if_neg hxe] at hx
          simp at hx
      · rintro ⟨j, hj, _⟩
        rw [hk0] at hj
        simp at hj
  have hfin := frLoop_pres hadj hstop' (stop - fr) fr c.offsets
      (List.replicate (c.offsets.getD stop 0) false) fr (by omega) (Nat.le_refl fr)
      hinit
  set st := frLoop f fr (stop - fr)
      (c.offsets, List.replicate (c.offsets.getD stop 0) false, fr) with hst
  have hA : st.2.2 = fr + (keptList f fr stop).length := hfin.1
  have hB : st.1.length = c.offsets.length := hfin.2.1
  have hC : ∀ x, x ≤ fr → st.1.getD x 0 = c.offsets.getD x 0 := hfin.2.2.1
  have hD : ∀ m, 1 ≤ m → m ≤ (keptList f fr stop).length →
      st.1.getD (fr + m) 0 =
        c.offsets.getD fr 0 +
          (((keptList f fr stop).take m).map (rowSize c.offsets)).sum :=
    hfin.2.2.2.1
  have hG : ∀ x, st.2.1.getD x false = true ↔
      ∃ j ∈ keptList f fr stop,
        c.offsets.getD j 0 ≤ x ∧ x < c.offsets.getD (j + 1) 0 :=
    hfin.2.2.2.2.2.2
  have hK_le : (keptList f fr stop).length ≤ stop - fr := keptList_length_le f fr stop
  have hro1 : st.2.2 + 1 ≤ c.offsets.length := by omega
  have hfr1 : fr + 1 ≤ c.offsets.length := by omega
  have hse : c.offsets.getD fr 0 ≤ c.offsets.getD stop 0 := hc.mono hfr hstop'
  have heK : c.keys.length = c.offsets.getD stop 0 := by
    rw [hc.keys_len, hc.back_eq_getD, ← hstop]
  have heV : c.values.length = c.offsets.getD stop 0 := by
    rw [hc.values_len, hc.back_eq_getD, ← hstop]
  have hrep0 : (st.2.2 + 1) - st.1.length = 0 := by omega
  have hres : filter_range c f fr stop =
      (resize { keys := childFilterRange c.keys st.2.1 (c.offsets.getD fr 0)
                  (c.offsets.getD stop 0)
                values := childFilterRange c.values st.2.1 (c.offsets.getD fr 0)
                  (c.offsets.getD stop 0)
                offsets := st.1 } st.2.2, st.2.2) := by
    rw [hst]
    rfl
  have hbase : (c.offsets.take (fr + 1)).getLastD 0 = c.offsets.getD fr 0 :=
    getLastD_take c.offsets fr hfr1
  have hoffR : (appendRowsList (takeRows c fr) c (keptList f fr stop)).offsets =
      c.offsets.take (fr + 1) ++ (List.range (keptList f fr stop).length).map
        (fun t => c.offsets.getD fr 0 +
          (((keptList f fr stop).take (t + 1)).map (rowSize c.offsets)).sum) := by
    rw [appendRowsList_offsets]
    show (keptList f fr stop).foldl (fun o j => o ++ [o.getLastD 0 + rowSize c.offsets j])
        (c.offsets.take (fr + 1)) = _
    rw [foldl_concat_sums]
    simp only [hbase]
  have harr : (st.1.take (st.2.2 + 1) ++ List.replicate ((st.2.2 + 1) - st.1.length)
      (st.1.getLastD 0)).getLastD 0 =
      c.offsets.getD fr 0 + ((keptList f fr stop).map (rowSize c.offsets)).sum := by
    rw [hrep0, List.replicate_zero, List.append_nil]
    rw [getLastD_take st.1 st.2.2 (by omega)]
    rcases Nat.eq_zero_or_pos (keptList f fr stop).length with hK0 | hKpos
    · have hnil : keptList f fr stop = [] := List.eq_nil_of_length_eq_zero hK0
      rw [hA, hK0, Nat.add_zero, hC fr (Nat.le_refl fr), hnil]
      simp
    · have hd := hD (keptList f fr stop).length hKpos (Nat.le_refl _)
      rw [List.take_length] at hd
      rw [hA, hd]
  have hwinK := childFilter_window c.keys hadj hstop' heK hG (stop - fr) fr
      (by omega) (Nat.le_refl fr)
  have hwinV := childFilter_window c.values hadj hstop' heV hG (stop - fr) fr
      (by omega) (Nat.le_refl fr)
  have hXK : childFilterRange c.keys st.2.1 (c.offsets.getD fr 0)
      (c.offsets.getD stop 0) =
      c.keys.take (c.offsets.getD fr 0) ++ (keptList f fr stop).flatMap
        (fun j => (c.keys.drop (c.offsets.getD j 0)).take (rowSize c.offsets j)) := by
    show c.keys.take (c.offsets.getD fr 0) ++
        (List.range (c.offsets.getD stop 0 - c.offsets.getD fr 0)).filterMap
          (fun j => if st.2.1.getD (c.offsets.getD fr 0 + j) false
            then c.keys[c.offsets.getD fr 0 + j]? else none) = _
    rw [hwinK]
  have hXV : childFilterRange c.values st.2.1 (c.offsets.getD fr 0)
      (c.offsets.getD stop 0) =
      c.values.take (c.offsets.getD fr 0) ++ (keptList f fr stop).flatMap
        (fun j => (c.values.drop (c.offsets.getD j 0)).take (rowSize c.offsets j)) := by
    show c.values.take (c.offsets.getD fr 0) ++
        (List.range (c.offsets.getD stop 0 - c.offsets.getD fr 0)).filterMap
          (fun j => if st.2.1.getD (c.offsets.getD fr 0 + j) false
            then c.values[c.offsets.getD fr 0 + j]? else none) = _
    rw [hwinV]
  have hlenXK : (childFilterRange c.keys st.2.1 (c.offsets.getD fr 0)
      (c.offsets.getD stop 0)).length =
      c.offsets.getD fr 0 + ((keptList f fr stop).map (rowSize c.offsets)).sum := by
    rw [hXK, List.length_append, List.length_take, List.length_flatMap]
    have h2 : ((keptList f fr stop).map
        (List.length ∘ fun j =>
          (c.keys.drop (c.offsets.getD j 0)).take (rowSize c.offsets j))).sum =
        ((keptList f fr stop).map (rowSize c.offsets)).sum := by
      congr 1
      apply List.map_congr_left
      intro j hj
      obtain ⟨hjf, hjs, _⟩ := keptList_mem.mp hj
      have hj1 : c.offsets.getD (j + 1) 0 ≤ c.offsets.getD stop 0 :=
        hc.mono (by omega) hstop'
      have hj0 : c.offsets.getD j 0 ≤ c.offsets.getD (j + 1) 0 :=
        hc.mono (by omega) (by omega)
      show ((c.keys.drop (c.offsets.getD j 0)).take (rowSize c.offsets j)).length =
        rowSize c.offsets j
      rw [List.length_take, List.length_drop, heK]
      unfold rowSize
      omega
    rw [h2]
    rw [heK]
    omega
  have hlenXV : (childFilterRange c.values st.2.1 (c.offsets.getD fr 0)
      (c.offsets.getD stop 0)).length =
      c.offsets.getD fr 0 + ((keptList f fr stop).map (rowSize c.offsets)).sum := by
    rw [hXV, List.length_append, List.length_take, List.length_flatMap]
    have h2 : ((keptList f fr stop).map
        (List.length ∘ fun j =>
          (c.values.drop (c.offsets.getD j 0)).take (rowSize c.offsets j))).sum =
        ((keptList f fr stop).map (rowSize c.offsets)).sum := by
      congr 1
      apply List.map_congr_left
      intro j hj
      obtain ⟨hjf, hjs, _⟩ := keptList_mem.mp hj
      have hj1 : c.offsets.getD (j + 1) 0 ≤ c.offsets.getD stop 0 :=
        hc.mono (by omega) hstop'
      have hj0 : c.offsets.getD j 0 ≤ c.offsets.getD (j + 1) 0 :=
        hc.mono (by omega) (by omega)
      show ((c.values.drop (c.offsets.getD j 0)).take (rowSize c.offsets j)).length =
        rowSize c.offsets j
      rw [List.length_take, List.length_drop, heV]
      unfold rowSize
      omega
    rw [h2]
    rw [heV]
    omega
  rw [hres]
  refine ⟨?_, hA⟩
  apply ext'
  · show childResize (childFilterRange c.keys st.2.1 (c.offsets.getD fr 0)
        (c.offsets.getD stop 0))
        ((st.1.take (st.2.2 + 1) ++ List.replicate ((st.2.2 + 1) - st.1.length)
          (st.1.getLastD 0)).getLastD 0) =
      (appendRowsList (takeRows c fr) c (keptList f fr stop)).keys
    rw [harr, ← hlenXK, childResize_self, hXK, appendRowsList_keys]
    rfl
  · show childResize (childFilterRange c.values st.2.1 (c.offsets.getD fr 0)
        (c.offsets.getD stop 0))
        ((st.1.take (st.2.2 + 1) ++ List.replicate ((st.2.2 + 1) - st.1.length)
          (st.1.getLastD 0)).getLastD 0) =
      (appendRowsList (takeRows c fr) c (keptList f fr stop)).values
    rw [harr, ← hlenXV, childResize_self, hXV, appendRowsList_values]
    rfl
  · show st.1.take (st.2.2 + 1) ++ List.replicate ((st.2.2 + 1) - st.1.length)
        (st.1.getLastD 0) =
      (appendRowsList (takeRows c fr) c (keptList f fr stop)).offsets
    rw [hrep0, List.replicate_zero, List.append_nil, hoffR]
    apply List.ext_getElem
    · rw [List.length_take, List.length_append, List.length_take, List.length_map,
          List.length_range]
      omega
    · intro n h1 h2
      have hn1 : n < st.2.2 + 1 := by
        rw [List.length_take] at h1
        omega
      rw [← List.getD_eq_getElem (st.1.take (st.2.2 + 1)) 0 h1,
          ← List.getD_eq_getElem _ 0 h2]
      have hL : (st.1.take (st.2.2 + 1)).getD n 0 = st.1.getD n 0 := by
        rw [List.getD_eq_getElem?_getD, List.getElem?_take, if_pos hn1,
            ← List.getD_eq_getElem?_getD]
      rw [hL]
      rcases Nat.lt_or_ge n (fr + 1) with hn | hn
      · rw [List.getD_append _ _ _ _ (by rw [List.length_take]; omega)]
        have hR : (c.offsets.take (fr + 1)).getD n 0 = c.offsets.getD n 0 := by
          rw [List.getD_eq_getElem?_getD, List.getElem?_take, if_pos hn,
              ← List.getD_eq_getElem?_getD]
        rw [hR]
        exact hC n (by omega)
      · obtain ⟨m, rfl⟩ : ∃ m, n = fr + (m + 1) := ⟨n - (fr + 1), by omega⟩
        have hmK : m + 1 ≤ (keptList f fr stop).length := by omega
        rw [List.getD_append_right _ _ _ _ (by rw [List.length_take]; omega)]
        rw [List.length_take, show min (fr + 1) c.offsets.length = fr + 1 from by omega]
        have htm : fr + (m + 1) - (fr + 1) = m := by omega
        rw [htm]
        have hdm := hD (m + 1) (by omega) hmK
        have hRm : ((List.range (keptList f fr stop).length).map
            (fun t => c.offsets.getD fr 0 +
              (((keptList f fr stop).take (t + 1)).map (rowSize c.offsets)).sum)).getD m 0 =
            c.offsets.getD fr 0 +
              (((keptList f fr stop).take (m + 1)).map (rowSize c.offsets)).sum := by
          rw [List.getD_eq_getElem?_getD, List.getElem?_map,
              List.getElem?_range (by omega)]
          rfl
        rw [hRm]
        have hidx : fr + (m + 1) = fr + (m + 1) := rfl
        show st.1.getD (fr + (m + 1)) 0 = _
        rw [hdm]

lemma filter_range_rows (c : MapColumn α β) (f : List Bool) (fr : Nat)
    (hc : WellFormed c) (hfr : fr ≤ c.size) :
    rows (filter_range c f fr c.size).1 =
      (List.range fr).map (rowOf c) ++ (keptList f fr c.size).map (rowOf c) ∧
    WellFormed (filter_range c f fr c.size).1 ∧
    (filter_range c f fr c.size).2 = fr + (keptList f fr c.size).length := by
  obtain ⟨h1, h2⟩ := filter_range_eq c f fr c.size hc hfr rfl
  have hbw : WellFormed (takeRows c fr) := hc.takeRows_pres hfr
  have hbound : ∀ j ∈ keptList f fr c.size, j < c.size := by
    intro j hj
    exact (keptList_mem.mp hj).2.1
  obtain ⟨hr, hw⟩ := appendRowsList_rows_wf hc (keptList f fr c.size)
      (takeRows c fr) hbw hbound
  refine ⟨?_, ?_, h2⟩
  · rw [h1, hr, takeRows_rows hc hfr]
  · rw [h1]
    exact hw

lemma size_eq_rows_length (d : MapColumn α β) : d.size = (rows d).length := by
  unfold rows
  rw [List.length_map, List.length_range]

/-- C3: filter_range with a row keep-mask and `to` equal to the row count
compacts exactly the truthy-mask rows of `[from, to)` into a contiguous
block after the untouched prefix `[0, from)`, preserving their relative
order and per-row contents, keeps the column well-formed, and returns the
new row count; an all-true mask over `[0, n)` leaves the logical contents
(row count and per-row values) unchanged; and the mask `[1,0,1,1,0]` on
rows `[{a:1}, {}, {b:2,c:3}, {}, {d:4}]` yields `[{a:1}, {b:2,c:3}, {}]`
with the returned row count 3. -/
theorem filter_range_compacts_kept_rows (c : MapColumn α β) (f : List Bool)
    (fr : Nat) (hc : WellFormed c) (hfr : fr ≤ c.size) :
    (rows (filter_range c f fr c.size).1 =
      (List.range fr).map (rowOf c) ++ (keptList f fr c.size).map (rowOf c) ∧
     WellFormed (filter_range c f fr c.size).1 ∧
     (filter_range c f fr c.size).2 = fr + (keptList f fr c.size).length ∧
     (filter_range c f fr c.size).1.size = fr + (keptList f fr c.size).length) ∧
    (rows (filter_range c (List.replicate c.size true) 0 c.size).1 = rows c ∧
     (filter_range c (List.replicate c.size true) 0 c.size).2 = c.size) ∧
    (rows (filter_range
        ({ keys := [some 1, some 2, some 3, some 4],
           values := [some 10, some 20, some 30, some 40],
           offsets := [0, 1, 1, 3, 3, 4] } : MapColumn Nat Nat)
        [true, false, true, true, false] 0 5).1 =
      [[(some 1, some 10)], [(some 2, some 20), (some 3, some 30)], []] ∧
     (filter_range
        ({ keys := [some 1, some 2, some 3, some 4],
           values := [some 10, some 20, some 30, some 40],
           offsets := [0, 1, 1, 3, 3, 4] } : MapColumn Nat Nat)
        [true, false, true, true, false] 0 5).2 = 3) := by
  obtain ⟨hg1, hg2, hg3⟩ := filter_range_rows c f fr hc hfr
  refine ⟨⟨hg1, hg2, hg3, ?_⟩, ⟨?_, ?_⟩, by decide, by decide⟩
  · rw [size_eq_rows_length, hg1, List.length_append, List.length_map,
        List.length_map, List.length_range]
  · obtain ⟨ha1, _, _⟩ :=
      filter_range_rows c (List.replicate c.size true) 0 hc (Nat.zero_le _)
    have hkept : keptList (List.replicate c.size true) 0 c.size =
        List.range c.size := by
      unfold keptList
      rw [Nat.sub_zero, ← List.range_eq_range']
      apply List.filter_eq_self.mpr
      intro a ha
      have halt : a < c.size := List.mem_range.mp ha
      rw [List.getD_eq_getElem?_getD, List.getElem?_replicate, if_pos halt]
      rfl
    rw [ha1, hkept]
    show (List.range 0).map (rowOf c) ++ (List.range c.size).map (rowOf c) = rows c
    rw [List.range_zero, List.map_nil, List.nil_append]
    rfl
  · obtain ⟨_, _, ha3⟩ :=
      filter_range_rows c (List.replicate c.size true) 0 hc (Nat.zero_le _)
    have hkept : keptList (List.replicate c.size true) 0 c.size =
        List.range c.size := by
      unfold keptList
      rw [Nat.sub_zero, ← List.range_eq_range']
      apply List.filter_eq_self.mpr
      intro a ha
      have halt : a < c.size := List.mem_range.mp ha
      rw [List.getD_eq_getElem?_getD, List.getElem?_replicate, if_pos halt]
      rfl
    rw [ha3, hkept, List.length_range, Nat.zero_add]

/-- Witness for C3 at a concrete well-formed column, mask and start row. -/
theorem filter_range_compacts_kept_rows_witness :
    (WellFormed ({ keys := [some 1, some 2, some 3, some 4],
                   values := [some 10, some 20, some 30, some 40],
                   offsets := [0, 1, 1, 3, 3, 4] } : MapColumn Nat Nat) ∧
     1 ≤ ({ keys := [some 1, some 2, some 3, some 4],
            values := [some 10, some 20, some 30, some 40],
            offsets := [0, 1, 1, 3, 3, 4] } : MapColumn Nat Nat).size) ∧
    (filter_range ({ keys := [some 1, some 2, some 3, some 4],
                     values := [some 10, some 20, some 30, some 40],
                     offsets := [0, 1, 1, 3, 3, 4] } : MapColumn Nat Nat)
      [true, false, true, true, false] 1
      ({ keys := [some 1, some 2, some 3, some 4],
         values := [some 10, some 20, some 30, some 40],
         offsets := [0, 1, 1, 3, 3, 4] } : MapColumn Nat Nat).size).2 =
      1 + (keptList [true, false, true, true, false] 1
        ({ keys := [some 1, some 2, some 3, some 4],
           values := [some 10, some 20, some 30, some 40],
           offsets := [0, 1, 1, 3, 3, 4] } : MapColumn Nat Nat).size).length :=
  ⟨⟨by decide, by decide⟩,
   (filter_range_compacts_kept_rows
      ({ keys := [some 1, some 2, some 3, some 4],
         values := [some 10, some 20, some 30, some 40],
         offsets := [0, 1, 1, 3, 3, 4] } : MapColumn Nat Nat)
      [true, false, true, true, false] 1 (by decide) (by decide)).1.2.2.1⟩

lemma foldl_set_length {δ : Type} (g : Nat → Nat) (v : Nat → δ) (is : List Nat) :
    ∀ l : List δ,
      (is.foldl (fun acc i => acc.set (g i) (v i)) l).length = l.length := by
  induction is with
  | nil =>
    intro l
    rfl
  | cons i is ih =>
    intro l
    rw [List.foldl_cons, ih, List.length_set]

lemma getD_set_ne' {δ : Type} (l : List δ) (d : δ) (n m : Nat) (a : δ) (h : n ≠ m) :
    (l.set n a).getD m d = l.getD m d := by
  rw [List.getD_eq_getElem?_getD, List.getD_eq_getElem?_getD, List.getElem?_set,
      if_neg h]

lemma getD_set_self' {δ : Type} (l : List δ) (d : δ) (n : Nat) (a : δ)
    (h : n < l.length) : (l.set n a).getD n d = a := by
  rw [List.getD_eq_getElem?_getD, List.getElem?_set, if_pos rfl, if_pos h]
  rfl

lemma foldl_set_getD_ne {δ : Type} (g : Nat → Nat) (v : Nat → δ) (d : δ) (p : Nat) :
    ∀ (is : List Nat), (∀ i ∈ is, g i ≠ p) →
      ∀ l : List δ,
        (is.foldl (fun acc i => acc.set (g i) (v i)) l).getD p d = l.getD p d := by
  intro is
  induction is with
  | nil =>
    intro _ l
    rfl
  | cons i is ih =>
    intro hp l
    rw [List.foldl_cons, ih (fun x hx => hp x (List.mem_cons_of_mem _ hx))]
    exact getD_set_ne' l d (g i) p (v i) (hp i (List.mem_cons_self i is))

lemma foldl_set_getD_hit {δ : Type} (g : Nat → Nat) (v : Nat → δ) (d : δ) (p : Nat)
    (k0 : Nat) (hk : g k0 = p) (is1 is2 : List Nat) (h2 : ∀ i ∈ is2, g i ≠ p)
    (l : List δ) (hl : p < l.length) :
    ((is1 ++ k0 :: is2).foldl (fun acc i => acc.set (g i) (v i)) l).getD p d =
      v k0 := by
  rw [List.foldl_append, List.foldl_cons, foldl_set_getD_ne g v d p is2 h2, hk]
  apply getD_set_self'
  rw [foldl_set_length]
  exact hl

lemma range_split (n k : Nat) (h : k < n) :
    List.range n = List.range k ++ k :: List.range' (k + 1) (n - (k + 1)) := by
  obtain ⟨m, rfl⟩ : ∃ m, n = (m + 1) + k := ⟨n - (k + 1), by omega⟩
  rw [show m + 1 + k - (k + 1) = m from by omega]
  rw [List.range_eq_range', List.range_eq_range',
      ← List.range'_append 0 k (m + 1) 1]
  congr 1
  rw [show 0 + 1 * k = k from by omega, List.range'_succ]

lemma find_range_eq_none (n : Nat) (p : Nat → Bool) (h : ∀ i < n, p i = false) :
    (List.range n).find? p = none := by
  apply List.find?_eq_none.mpr
  intro x hx
  rw [h x (List.mem_range.mp hx)]
  simp

lemma find_range_eq_some (n i0 : Nat) (p : Nat → Bool) (h0 : i0 < n)
    (hp : p i0 = true) (hmin : ∀ i < i0, p i = false) :
    (List.range n).find? p = some i0 := by
  rw [range_split n i0 h0, List.find?_append, find_range_eq_none i0 p hmin,
      List.find?_cons_of_pos _ hp]
  rfl

lemma row_ranges_disjoint {c : MapColumn α β} (hc : WellFormed c) {r1 r2 : Nat}
    (p : Nat) (h1 : r1 < c.size) (h2 : r2 < c.size) (hne : r1 ≠ r2)
    (hp1 : c.offsets.getD r1 0 ≤ p) (hp1b : p < c.offsets.getD (r1 + 1) 0)
    (hp2 : c.offsets.getD r2 0 ≤ p) (hp2b : p < c.offsets.getD (r2 + 1) 0) :
    False := by
  have hlen := hc.length_pos
  have h1' : r1 + 1 < c.offsets.length := by
    unfold size at h1
    omega
  have h2' : r2 + 1 < c.offsets.length := by
    unfold size at h2
    omega
  rcases Nat.lt_or_ge r1 r2 with h | h
  · have : c.offsets.getD (r1 + 1) 0 ≤ c.offsets.getD r2 0 :=
      hc.mono (by omega) (by omega)
    omega
  · have hlt : r2 < r1 := by omega
    have : c.offsets.getD (r2 + 1) 0 ≤ c.offsets.getD r1 0 :=
      hc.mono (by omega) (by omega)
    omega

lemma exists_row_of_pos {O : List Nat} (h0 : O.getD 0 0 = 0) :
    ∀ (n : Nat), n < O.length → ∀ (k : Nat), k < O.getD n 0 →
      ∃ i, i < n ∧ O.getD i 0 ≤ k ∧ k < O.getD (i + 1) 0 := by
  intro n
  induction n with
  | zero =>
    intro _ k hk
    rw [h0] at hk
    omega
  | succ n ih =>
    intro hn k hk
    rcases Nat.lt_or_ge k (O.getD n 0) with h | h
    · obtain ⟨i, hi, hi1, hi2⟩ := ih (by omega) k h
      exact ⟨i, by omega, hi1, hi2⟩
    · exact ⟨n, by omega, h, hk⟩

lemma chain_lt_imp_getD_lt {idxs : List Nat} {n : Nat} (hn : n ≤ idxs.length)
    (hch : List.Chain' (· < ·) (idxs.take n)) :
    ∀ i1 i2, i1 < i2 → i2 < n → idxs.getD i1 0 < idxs.getD i2 0 := by
  intro i1 i2 h12 h2n
  have hlen : (idxs.take n).length = n := by
    rw [List.length_take]
    omega
  have hpw := List.chain'_iff_pairwise.mp hch
  have := List.pairwise_iff_getElem.mp hpw i1 i2 (by omega) (by omega) h12
  rw [List.getElem_take, List.getElem_take] at this
  rw [List.getD_eq_getElem idxs 0 (by omega), List.getD_eq_getElem idxs 0 (by omega)]
  exact this

lemma elementIdxes_prefix_length (c src : MapColumn α β) (indexes : List Nat)
    (hs : WellFormed src) (i : Nat) (hi : i ≤ src.size) :
    ((List.range i).flatMap (fun i' => (List.range (rowSize src.offsets i')).map
      (fun j => c.offsets.getD (indexes.getD i' 0) 0 + j))).length =
      src.offsets.getD i 0 := by
  rw [List.length_flatMap]
  have h1 : (List.range i).map (List.length ∘ fun i' =>
      (List.range (rowSize src.offsets i')).map
        (fun j => c.offsets.getD (indexes.getD i' 0) 0 + j)) =
      (List.range i).map (rowSize src.offsets) := by
    apply List.map_congr_left
    intro x _
    show ((List.range (rowSize src.offsets x)).map
      (fun j => c.offsets.getD (indexes.getD x 0) 0 + j)).length = _
    rw [List.length_map, List.length_range]
  rw [h1, List.range_eq_range']
  have hlen := hs.length_pos
  have hilen : 0 + i < src.offsets.length := by
    unfold size at hi
    omega
  rw [sum_rowSize_range' hs.2.2.1 i 0 hilen, Nat.zero_add, hs.2.1, Nat.sub_zero]

lemma elementIdxes_getD (c src : MapColumn α β) (indexes : List Nat)
    (hs : WellFormed src) {i jx : Nat} (hi : i < src.size)
    (hjx : jx < rowSize src.offsets i) :
    (elementIdxes c src indexes).getD (src.offsets.getD i 0 + jx) 0 =
      c.offsets.getD (indexes.getD i 0) 0 + jx := by
  unfold elementIdxes
  rw [range_split src.size i hi, List.flatMap_append, List.flatMap_cons]
  have hpl := elementIdxes_prefix_length c src indexes hs i (by omega)
  rw [List.getD_append_right _ _ _ _ (by rw [hpl]; omega)]
  rw [hpl, show src.offsets.getD i 0 + jx - src.offsets.getD i 0 = jx from by omega]
  rw [List.getD_append _ _ _ _ (by rw [List.length_map, List.length_range]; omega)]
  rw [List.getD_eq_getElem?_getD, List.getElem?_map, List.getElem?_range hjx]
  rfl

lemma childUpdateRows_length {γ : Type} (l srcl : List (Option γ))
    (idxs : List Nat) : (childUpdateRows l srcl idxs).length = l.length := by
  unfold childUpdateRows
  exact foldl_set_length (fun k => idxs.getD k 0) (fun k => srcl.getD k none)
    (List.range srcl.length) l

lemma childUpdateRows_getD_untouched {γ : Type} (c src : MapColumn α β)
    (indexes : List Nat) (hc : WellFormed c) (hs : WellFormed src)
    (hbnd : ∀ i < src.size, indexes.getD i 0 < c.size)
    (hcard : ∀ i < src.size,
      rowSize c.offsets (indexes.getD i 0) = rowSize src.offsets i)
    (l srcl : List (Option γ)) (hsrcl : srcl.length = src.backOff)
    (p : Nat)
    (hp : ∀ i < src.size, ¬ (c.offsets.getD (indexes.getD i 0) 0 ≤ p ∧
      p < c.offsets.getD (indexes.getD i 0 + 1) 0)) :
    (childUpdateRows l srcl (elementIdxes c src indexes)).getD p none =
      l.getD p none := by
  unfold childUpdateRows
  refine foldl_set_getD_ne (fun k => (elementIdxes c src indexes).getD k 0)
    (fun k => srcl.getD k none) none p (List.range srcl.length) ?_ l
  intro k hk
  have hk' : k < srcl.length := List.mem_range.mp hk
  have hkb : k < src.offsets.getD src.size 0 := by
    rw [hsrcl, hs.back_eq_getD] at hk'
    exact hk'
  have hslen := hs.length_pos
  obtain ⟨i, hi, hik1, hik2⟩ := exists_row_of_pos hs.2.1 src.size
    (by unfold size; omega) k hkb
  have hjx : k - src.offsets.getD i 0 < rowSize src.offsets i := by
    unfold rowSize
    omega
  have hE : (elementIdxes c src indexes).getD k 0 =
      c.offsets.getD (indexes.getD i 0) 0 + (k - src.offsets.getD i 0) := by
    have h := elementIdxes_getD c src indexes hs hi hjx
    rw [show src.offsets.getD i 0 + (k - src.offsets.getD i 0) = k
      from by omega] at h
    exact h
  show (elementIdxes c src indexes).getD k 0 ≠ p
  intro hpk
  have hclen := hc.length_pos
  have hib : indexes.getD i 0 < c.size := hbnd i hi
  have hib' : indexes.getD i 0 + 1 < c.offsets.length := by
    unfold size at hib
    omega
  have hmono : c.offsets.getD (indexes.getD i 0) 0 ≤
      c.offsets.getD (indexes.getD i 0 + 1) 0 := hc.mono (by omega) (by omega)
  have hcd := hcard i hi
  unfold rowSize at hcd hjx
  refine hp i hi ⟨?_, ?_⟩ <;> omega

lemma childUpdateRows_getD_hit {γ : Type} (c src : MapColumn α β)
    (indexes : List Nat) (hc : WellFormed c) (hs : WellFormed src)
    (hbnd : ∀ i < src.size, indexes.getD i 0 < c.size)
    (hinj : ∀ i1 i2, i1 < i2 → i2 < src.size →
      indexes.getD i1 0 < indexes.getD i2 0)
    (hcard : ∀ i < src.size,
      rowSize c.offsets (indexes.getD i 0) = rowSize src.offsets i)
    (l srcl : List (Option γ)) (hl : l.length = c.backOff)
    (hsrcl : srcl.length = src.backOff)
    {i0 t : Nat} (hi0 : i0 < src.size) (ht : t < rowSize src.offsets i0) :
    (childUpdateRows l srcl (elementIdxes c src indexes)).getD
      (c.offsets.getD (indexes.getD i0 0) 0 + t) none =
      srcl.getD (src.offsets.getD i0 0 + t) none := by
  unfold childUpdateRows
  have hslen := hs.length_pos
  have hclen := hc.length_pos
  have hi0' : i0 + 1 < src.offsets.length := by
    unfold size at hi0
    omega
  have hup : src.offsets.getD (i0 + 1) 0 ≤ src.offsets.getD src.size 0 :=
    hs.mono (by unfold size; omega) (by unfold size; omega)
  have hk0lt : src.offsets.getD i0 0 + t < srcl.length := by
    rw [hsrcl, hs.back_eq_getD]
    unfold rowSize at ht
    omega
  have hEk0 : (elementIdxes c src indexes).getD (src.offsets.getD i0 0 + t) 0 =
      c.offsets.getD (indexes.getD i0 0) 0 + t :=
    elementIdxes_getD c src indexes hs hi0 ht
  have hib0 : indexes.getD i0 0 < c.size := hbnd i0 hi0
  have hib0' : indexes.getD i0 0 + 1 < c.offsets.length := by
    unfold size at hib0
    omega
  have hmono0 : c.offsets.getD (indexes.getD i0 0) 0 ≤
      c.offsets.getD (indexes.getD i0 0 + 1) 0 := hc.mono (by omega) (by omega)
  have hcd0 := hcard i0 hi0
  have hplt : c.offsets.getD (indexes.getD i0 0) 0 + t <
      c.offsets.getD (indexes.getD i0 0 + 1) 0 := by
    unfold rowSize at hcd0 ht
    omega
  rw [range_split srcl.length (src.offsets.getD i0 0 + t) hk0lt]
  refine foldl_set_getD_hit (fun k => (elementIdxes c src indexes).getD k 0)
    (fun k => srcl.getD k none) none
    (c.offsets.getD (indexes.getD i0 0) 0 + t) (src.offsets.getD i0 0 + t) hEk0
    (List.range (src.offsets.getD i0 0 + t))
    (List.range' (src.offsets.getD i0 0 + t + 1)
      (srcl.length - (src.offsets.getD i0 0 + t + 1))) ?_ l ?_
  · intro k hkm
    obtain ⟨w, hw, hkw⟩ := List.mem_range'.mp hkm
    have hk1 : src.offsets.getD i0 0 + t + 1 ≤ k := by omega
    have hk' : k < srcl.length := by omega
    have hkb : k < src.offsets.getD src.size 0 := by
      rw [hsrcl, hs.back_eq_getD] at hk'
      exact hk'
    obtain ⟨i, hi, hik1, hik2⟩ := exists_row_of_pos hs.2.1 src.size
      (by unfold size; omega) k hkb
    have hjx : k - src.offsets.getD i 0 < rowSize src.offsets i := by
      unfold rowSize
      omega
    have hE : (elementIdxes c src indexes).getD k 0 =
        c.offsets.getD (indexes.getD i 0) 0 + (k - src.offsets.getD i 0) := by
      have h := elementIdxes_getD c src indexes hs hi hjx
      rw [show src.offsets.getD i 0 + (k - src.offsets.getD i 0) = k
        from by omega] at h
      exact h
    show (elementIdxes c src indexes).getD k 0 ≠
      c.offsets.getD (indexes.getD i0 0) 0 + t
    intro hpk
    by_cases hii : i = i0
    · subst hii
      omega
    · have hib : indexes.getD i 0 < c.size := hbnd i hi
      have hib' : indexes.getD i 0 + 1 < c.offsets.length := by
        unfold size at hib
        omega
      have hmono : c.offsets.getD (indexes.getD i 0) 0 ≤
          c.offsets.getD (indexes.getD i 0 + 1) 0 := hc.mono (by omega) (by omega)
      have hcd := hcard i hi
      have hidxne : indexes.getD i 0 ≠ indexes.getD i0 0 := by
        rcases Nat.lt_or_ge i i0 with h | h
        · exact Nat.ne_of_lt (hinj i i0 h hi0)
        · exact Nat.ne_of_gt (hinj i0 i (by omega) hi)
      refine row_ranges_disjoint hc
        (c.offsets.getD (indexes.getD i0 0) 0 + t) hib hib0 hidxne
        ?_ ?_ ?_ ?_ <;>
        (unfold rowSize at hcd hjx; omega)
  · rw [hl, hc.back_eq_getD]
    have hcap : c.offsets.getD (indexes.getD i0 0 + 1) 0 ≤
        c.offsets.getD c.size 0 :=
      hc.mono (by omega) (by unfold size; omega)
    omega

lemma needResize_false_iff (c src : MapColumn α β) (indexes : List Nat) :
    needResize c src indexes = false ↔
      ∀ i < src.size,
        rowSize c.offsets (indexes.getD i 0) = rowSize src.offsets i := by
  unfold needResize
  rw [List.any_eq_false]
  constructor
  · intro h i hi
    have := h i (List.mem_range.mpr hi)
    simpa using this
  · intro h x hx
    have := h x (List.mem_range.mp hx)
    show ¬ (rowSize c.offsets (indexes.getD x 0) != rowSize src.offsets x) = true
    rw [this]
    simp

lemma update_rows_fast_rows (c src : MapColumn α β) (indexes : List Nat)
    (hc : WellFormed c) (hs : WellFormed src)
    (hbnd : ∀ i < src.size, indexes.getD i 0 < c.size)
    (hinj : ∀ i1 i2, i1 < i2 → i2 < src.size →
      indexes.getD i1 0 < indexes.getD i2 0)
    (hcard : ∀ i < src.size,
      rowSize c.offsets (indexes.getD i 0) = rowSize src.offsets i) :
    rows { c with
        keys := childUpdateRows c.keys src.keys (elementIdxes c src indexes)
        values := childUpdateRows c.values src.values (elementIdxes c src indexes) } =
      replacedRows c src indexes := by
  have hclen := hc.length_pos
  unfold rows replacedRows
  have hsz : ({ c with
      keys := childUpdateRows c.keys src.keys (elementIdxes c src indexes)
      values := childUpdateRows c.values src.values
        (elementIdxes c src indexes) } : MapColumn α β).size = c.size := rfl
  rw [hsz]
  apply List.map_congr_left
  intro j hj
  have hjc : j < c.size := List.mem_range.mp hj
  have hj1 : j + 1 < c.offsets.length := by
    unfold size at hjc
    omega
  have hmj : c.offsets.getD j 0 ≤ c.offsets.getD (j + 1) 0 :=
    hc.mono (by omega) (by omega)
  have hjb : c.offsets.getD (j + 1) 0 ≤ c.backOff := hc.getD_le_back (by omega)
  have hkeylen : c.keys.length = c.backOff := hc.keys_len
  have hvallen : c.values.length = c.backOff := hc.values_len
  have hRklen : (childUpdateRows c.keys src.keys
      (elementIdxes c src indexes)).length = c.keys.length :=
    childUpdateRows_length _ _ _
  have hRvlen : (childUpdateRows c.values src.values
      (elementIdxes c src indexes)).length = c.values.length :=
    childUpdateRows_length _ _ _
  have hboundK : c.offsets.getD j 0 + rowSize c.offsets j ≤ c.keys.length := by
    unfold rowSize
    rw [hkeylen]
    omega
  have hboundV : c.offsets.getD j 0 + rowSize c.offsets j ≤ c.values.length := by
    unfold rowSize
    rw [hvallen]
    omega
  by_cases hex : ∃ i, i < src.size ∧ indexes.getD i 0 = j
  · obtain ⟨i0, hi0, hij⟩ := hex
    have hfind : (List.range src.size).find?
        (fun i => indexes.getD i 0 = j) = some i0 := by
      apply find_range_eq_some src.size i0 _ hi0 (decide_eq_true hij)
      intro i hi'
      apply decide_eq_false
      have := hinj i i0 hi' hi0
      omega
    have hnn : rowSize c.offsets j = rowSize src.offsets i0 := by
      have h := hcard i0 hi0
      rw [hij] at h
      exact h
    have hslen := hs.length_pos
    have hi0' : i0 + 1 < src.offsets.length := by
      unfold size at hi0
      omega
    have hms : src.offsets.getD i0 0 ≤ src.offsets.getD (i0 + 1) 0 :=
      hs.mono (by omega) (by omega)
    have hsb : src.offsets.getD (i0 + 1) 0 ≤ src.backOff :=
      hs.getD_le_back (by omega)
    have hsboundK : src.offsets.getD i0 0 + rowSize src.offsets i0 ≤
        src.keys.length := by
      unfold rowSize
      rw [hs.keys_len]
      omega
    have hsboundV : src.offsets.getD i0 0 + rowSize src.offsets i0 ≤
        src.values.length := by
      unfold rowSize
      rw [hs.values_len]
      omega
    have hmain : rowOf { c with
        keys := childUpdateRows c.keys src.keys (elementIdxes c src indexes)
        values := childUpdateRows c.values src.values
          (elementIdxes c src indexes) } j = rowOf src i0 := by
      show (((childUpdateRows c.keys src.keys
          (elementIdxes c src indexes)).drop (c.offsets.getD j 0)).take
            (rowSize c.offsets j)).zip
        (((childUpdateRows c.values src.values
          (elementIdxes c src indexes)).drop (c.offsets.getD j 0)).take
            (rowSize c.offsets j)) = rowOf src i0
      rw [slice_eq_map_getD _ _ _ (by rw [hRklen]; exact hboundK),
          slice_eq_map_getD _ _ _ (by rw [hRvlen]; exact hboundV),
          List.zip_map']
      unfold rowOf
      rw [slice_eq_map_getD _ _ _ hsboundK, slice_eq_map_getD _ _ _ hsboundV,
          List.zip_map', hnn]
      apply List.map_congr_left
      intro tt htt
      have htt' : tt < rowSize src.offsets i0 := List.mem_range.mp htt
      have hhitK := childUpdateRows_getD_hit c src indexes hc hs hbnd hinj hcard
        c.keys src.keys hkeylen hs.keys_len hi0 htt'
      have hhitV := childUpdateRows_getD_hit c src indexes hc hs hbnd hinj hcard
        c.values src.values hvallen hs.values_len hi0 htt'
      rw [hij] at hhitK hhitV
      show ((childUpdateRows c.keys src.keys
          (elementIdxes c src indexes)).getD (c.offsets.getD j 0 + tt) none,
        (childUpdateRows c.values src.values
          (elementIdxes c src indexes)).getD (c.offsets.getD j 0 + tt) none) =
        (src.keys.getD (src.offsets.getD i0 0 + tt) none,
         src.values.getD (src.offsets.getD i0 0 + tt) none)
      rw [hhitK, hhitV]
    rw [hfind]
    exact hmain
  · push_neg at hex
    have hfindn : (List.range src.size).find?
        (fun i => indexes.getD i 0 = j) = none := by
      apply find_range_eq_none
      intro i hi'
      exact decide_eq_false (hex i hi')
    have hmain : rowOf { c with
        keys := childUpdateRows c.keys src.keys (elementIdxes c src indexes)
        values := childUpdateRows c.values src.values
          (elementIdxes c src indexes) } j = rowOf c j := by
      show (((childUpdateRows c.keys src.keys
          (elementIdxes c src indexes)).drop (c.offsets.getD j 0)).take
            (rowSize c.offsets j)).zip
        (((childUpdateRows c.values src.values
          (elementIdxes c src indexes)).drop (c.offsets.getD j 0)).take
            (rowSize c.offsets j)) = rowOf c j
      rw [slice_eq_map_getD _ _ _ (by rw [hRklen]; exact hboundK),
          slice_eq_map_getD _ _ _ (by rw [hRvlen]; exact hboundV),
          List.zip_map']
      unfold rowOf
      rw [slice_eq_map_getD _ _ _ hboundK, slice_eq_map_getD _ _ _ hboundV,
          List.zip_map']
      apply List.map_congr_left
      intro tt htt
      have htt' : tt < rowSize c.offsets j := List.mem_range.mp htt
      have hp : ∀ i < src.size,
          ¬ (c.offsets.getD (indexes.getD i 0) 0 ≤ c.offsets.getD j 0 + tt ∧
            c.offsets.getD j 0 + tt <
              c.offsets.getD (indexes.getD i 0 + 1) 0) := by
        intro i hi' hcon
        exact row_ranges_disjoint hc (c.offsets.getD j 0 + tt)
          (hbnd i hi') hjc (hex i hi') hcon.1 hcon.2 (by omega)
          (by unfold rowSize at htt'; omega)
      have hUK := childUpdateRows_getD_untouched c src indexes hc hs hbnd hcard
        c.keys src.keys hs.keys_len (c.offsets.getD j 0 + tt) hp
      have hUV := childUpdateRows_getD_untouched c src indexes hc hs hbnd hcard
        c.values src.values hs.values_len (c.offsets.getD j 0 + tt) hp
      show ((childUpdateRows c.keys src.keys
          (elementIdxes c src indexes)).getD (c.offsets.getD j 0 + tt) none,
        (childUpdateRows c.values src.values
          (elementIdxes c src indexes)).getD (c.offsets.getD j 0 + tt) none) =
        (c.keys.getD (c.offsets.getD j 0 + tt) none,
         c.values.getD (c.offsets.getD j 0 + tt) none)
      rw [hUK, hUV]
    rw [hfindn]
    exact hmain

lemma replacedRows_eq_map (c src : MapColumn α β) (indexes : List Nat) :
    replacedRows c src indexes =
      (List.range c.size).map (replRow c src indexes) := rfl

lemma clone_empty_wf (c : MapColumn α β) : WellFormed (clone_empty c) := by
  refine ⟨by simp [clone_empty], rfl, ?_, rfl, rfl⟩
  intro i hi
  simp [clone_empty] at hi

lemma urFold_succ (c src : MapColumn α β) (indexes : List Nat) (t : Nat) :
    urFold c src indexes (t + 1) =
      urStep c src indexes (urFold c src indexes t) t := by
  unfold urFold
  rw [List.range_succ, List.foldl_append]
  rfl

lemma replRow_eq_self (c src : MapColumn α β) (indexes : List Nat) (j : Nat)
    (hnone : ∀ i < src.size, indexes.getD i 0 ≠ j) :
    replRow c src indexes j = rowOf c j := by
  unfold replRow
  rw [find_range_eq_none _ _ (fun i hi => decide_eq_false (hnone i hi))]

lemma replRow_eq_src (c src : MapColumn α β) (indexes : List Nat)
    (hinj : ∀ i1 i2, i1 < i2 → i2 < src.size →
      indexes.getD i1 0 < indexes.getD i2 0)
    {i0 : Nat} (hi0 : i0 < src.size) :
    replRow c src indexes (indexes.getD i0 0) = rowOf src i0 := by
  unfold replRow
  rw [find_range_eq_some src.size i0
    (fun i => decide (indexes.getD i 0 = indexes.getD i0 0)) hi0
    (decide_eq_true rfl)
    (fun i hi => decide_eq_false (by have := hinj i i0 hi hi0; omega))]

lemma urFold_inv (c src : MapColumn α β) (indexes : List Nat)
    (hc : WellFormed c) (hs : WellFormed src)
    (hbnd : ∀ i < src.size, indexes.getD i 0 < c.size)
    (hinj : ∀ i1 i2, i1 < i2 → i2 < src.size →
      indexes.getD i1 0 < indexes.getD i2 0) :
    ∀ t, t ≤ src.size →
      WellFormed (urFold c src indexes t).1 ∧
      (urFold c src indexes t).2 =
        (if t = 0 then 0 else indexes.getD (t - 1) 0 + 1) ∧
      (urFold c src indexes t).2 ≤ c.size ∧
      rows (urFold c src indexes t).1 =
        (List.range (urFold c src indexes t).2).map (replRow c src indexes) := by
  intro t
  induction t with
  | zero =>
    intro _
    refine ⟨clone_empty_wf c, rfl, Nat.zero_le _, rfl⟩
  | succ t ih =>
    intro ht1
    have htss : t < src.size := by omega
    obtain ⟨hwf, hst2, hle, hrows⟩ := ih (by omega)
    have hidx : indexes.getD t 0 < c.size := hbnd t htss
    have hmono_le : ∀ i1 i2, i1 ≤ i2 → i2 < src.size →
        indexes.getD i1 0 ≤ indexes.getD i2 0 := by
      intro i1 i2 h12 h2
      rcases Nat.eq_or_lt_of_le h12 with rfl | h
      · exact Nat.le_refl _
      · exact Nat.le_of_lt (hinj i1 i2 h h2)
    have hlt2 : (urFold c src indexes t).2 ≤ indexes.getD t 0 := by
      rcases Nat.eq_zero_or_pos t with rfl | htpos
      · rw [hst2]
        simp
      · rw [hst2, if_neg (by omega)]
        have := hinj (t - 1) t (by omega) htss
        omega
    have hlow : ∀ i', i' < t →
        indexes.getD i' 0 < (urFold c src indexes t).2 := by
      intro i' hi'
      rw [hst2, if_neg (by omega)]
      have := hmono_le i' (t - 1) (by omega) (by omega)
      omega
    have hm1wf : WellFormed (append (urFold c src indexes t).1 c
        (urFold c src indexes t).2
        (indexes.getD t 0 - (urFold c src indexes t).2)) :=
      hwf.append_pres hc (by omega)
    have hm2wf : WellFormed (append (append (urFold c src indexes t).1 c
        (urFold c src indexes t).2
        (indexes.getD t 0 - (urFold c src indexes t).2)) src t 1) :=
      hm1wf.append_pres hs (by omega)
    rw [urFold_succ]
    refine ⟨hm2wf, ?_, ?_, ?_⟩
    · show indexes.getD t 0 + 1 =
        if t + 1 = 0 then 0 else indexes.getD (t + 1 - 1) 0 + 1
      rw [if_neg (by omega), show t + 1 - 1 = t from by omega]
    · show indexes.getD t 0 + 1 ≤ c.size
      omega
    · show rows (append (append (urFold c src indexes t).1 c
          (urFold c src indexes t).2
          (indexes.getD t 0 - (urFold c src indexes t).2)) src t 1) =
        (List.range (indexes.getD t 0 + 1)).map (replRow c src indexes)
      rw [append_rows hm1wf hs (by omega), append_rows hwf hc (by omega), hrows]
      have hsl : sliceRows src t 1 = [rowOf src t] := by
        show (List.range 1).map (fun i => rowOf src (t + i)) = [rowOf src t]
        rw [show List.range 1 = [0] from rfl, List.map_cons, List.map_nil,
            Nat.add_zero]
      rw [hsl, List.range_succ, List.map_append]
      obtain ⟨u, hu⟩ : ∃ u, indexes.getD t 0 =
          (urFold c src indexes t).2 + u :=
        ⟨indexes.getD t 0 - (urFold c src indexes t).2, by omega⟩
      have hrsplit : List.range (indexes.getD t 0) =
          List.range (urFold c src indexes t).2 ++
            (List.range u).map (fun i => (urFold c src indexes t).2 + i) := by
        rw [hu, List.range_add]
      rw [hrsplit, List.map_append, List.map_map]
      have hmid : sliceRows c (urFold c src indexes t).2
          (indexes.getD t 0 - (urFold c src indexes t).2) =
          (List.range u).map
            (replRow c src indexes ∘ fun i => (urFold c src indexes t).2 + i) := by
        show (List.range (indexes.getD t 0 - (urFold c src indexes t).2)).map
          (fun i => rowOf c ((urFold c src indexes t).2 + i)) = _
        rw [show indexes.getD t 0 - (urFold c src indexes t).2 = u from by omega]
        apply List.map_congr_left
        intro i hi
        have hiu : i < u := List.mem_range.mp hi
        show rowOf c ((urFold c src indexes t).2 + i) =
          replRow c src indexes ((urFold c src indexes t).2 + i)
        rw [replRow_eq_self]
        intro i' hi' hcon
        rcases Nat.lt_or_ge i' t with hit | hit
        · have := hlow i' hit
          omega
        · have := hmono_le t i' hit hi'
          omega
      have hlast : replRow c src indexes (indexes.getD t 0) = rowOf src t :=
        replRow_eq_src c src indexes hinj htss
      rw [hmid]
      congr 1
      rw [List.map_cons, List.map_nil, hlast]

lemma update_rows_rows (c src : MapColumn α β) (indexes : List Nat)
    (hc : WellFormed c) (hs : WellFormed src)
    (hbnd : ∀ i < src.size, indexes.getD i 0 < c.size)
    (hinj : ∀ i1 i2, i1 < i2 → i2 < src.size →
      indexes.getD i1 0 < indexes.getD i2 0) :
    rows (update_rows c src indexes) = replacedRows c src indexes := by
  by_cases hnr : needResize c src indexes = false
  · have hcard := (needResize_false_iff c src indexes).mp hnr
    have h := update_rows_fast_rows c src indexes hc hs hbnd hinj hcard
    unfold update_rows
    rw [if_pos hnr]
    exact h
  · obtain ⟨hwf, hst2, hle, hrows⟩ :=
      urFold_inv c src indexes hc hs hbnd hinj src.size (Nat.le_refl _)
    have hhigh : ∀ i < src.size,
        indexes.getD i 0 < (urFold c src indexes src.size).2 := by
      intro i hi
      rw [hst2, if_neg (by omega)]
      have hm : indexes.getD i 0 ≤ indexes.getD (src.size - 1) 0 := by
        rcases Nat.eq_or_lt_of_le (show i ≤ src.size - 1 from by omega) with he | hl
        · rw [he]
        · exact Nat.le_of_lt (hinj i (src.size - 1) hl (by omega))
      omega
    have hfin : rows (if 0 < c.size - (urFold c src indexes src.size).2 then
        append (urFold c src indexes src.size).1 c
          (urFold c src indexes src.size).2
          (c.size - (urFold c src indexes src.size).2)
        else (urFold c src indexes src.size).1) =
        replacedRows c src indexes := by
      rw [replacedRows_eq_map]
      by_cases hrem : 0 < c.size - (urFold c src indexes src.size).2
      · rw [if_pos hrem]
        rw [append_rows hwf hc (by omega), hrows]
        obtain ⟨u, hu⟩ : ∃ u, c.size =
            (urFold c src indexes src.size).2 + u :=
          ⟨c.size - (urFold c src indexes src.size).2, by omega⟩
        have hrsplit : List.range c.size =
            List.range (urFold c src indexes src.size).2 ++
              (List.range u).map
                (fun i => (urFold c src indexes src.size).2 + i) := by
          rw [hu, List.range_add]
        rw [hrsplit, List.map_append, List.map_map]
        congr 1
        show (List.range (c.size - (urFold c src indexes src.size).2)).map
          (fun i => rowOf c ((urFold c src indexes src.size).2 + i)) = _
        rw [show c.size - (urFold c src indexes src.size).2 = u from by omega]
        apply List.map_congr_left
        intro i hi
        have hiu : i < u := List.mem_range.mp hi
        show rowOf c ((urFold c src indexes src.size).2 + i) =
          replRow c src indexes ((urFold c src indexes src.size).2 + i)
        rw [replRow_eq_self]
        intro i' hi' hcon
        have := hhigh i' hi'
        omega
      · rw [if_neg hrem]
        rw [hrows, show (urFold c src indexes src.size).2 = c.size from by omega]
    unfold update_rows
    rw [if_neg hnr]
    exact hfin

/-- C4: `update_rows(src, indexes)` takes the in-place fast path exactly
when every replacement row has the same element cardinality as the row it
replaces (otherwise the rebuild path), and on either path the resulting
logical contents replace row `indexes[i]` by source row `i` and keep every
other row; concretely, replacing row 1 of `[{1:10}, {2:20}, {3:30}]` with
`{7:9}` (same cardinality, fast path) yields `[{1:10}, {7:9}, {3:30}]`,
and with `{7:9, 8:8}` (different cardinality, rebuild path) yields
`[{1:10}, {7:9, 8:8}, {3:30}]`. -/
theorem update_rows_fast_iff_and_paths_agree (c src : MapColumn α β)
    (indexes : List Nat) (hc : WellFormed c) (hs : WellFormed src)
    (hsorted : ∀ i2 < src.size, ∀ i1 < i2,
      indexes.getD i1 0 < indexes.getD i2 0)
    (hbnd : ∀ i < src.size, indexes.getD i 0 < c.size) :
    (needResize c src indexes = false ↔
      ∀ i < src.size,
        rowSize c.offsets (indexes.getD i 0) = rowSize src.offsets i) ∧
    rows (update_rows c src indexes) = replacedRows c src indexes ∧
    (needResize ({ keys := [some 1, some 2, some 3],
                   values := [some 10, some 20, some 30],
                   offsets := [0, 1, 2, 3] } : MapColumn Nat Nat)
       { keys := [some 7], values := [some 9], offsets := [0, 1] } [1] = false ∧
     rows (update_rows ({ keys := [some 1, some 2, some 3],
                          values := [some 10, some 20, some 30],
                          offsets := [0, 1, 2, 3] } : MapColumn Nat Nat)
       { keys := [some 7], values := [some 9], offsets := [0, 1] } [1]) =
       [[(some 1, some 10)], [(some 7, some 9)], [(some 3, some 30)]]) ∧
    (needResize ({ keys := [some 1, some 2, some 3],
                   values := [some 10, some 20, some 30],
                   offsets := [0, 1, 2, 3] } : MapColumn Nat Nat)
       { keys := [some 7, some 8], values := [some 9, some 8],
         offsets := [0, 2] } [1] = true ∧
     rows (update_rows ({ keys := [some 1, some 2, some 3],
                          values := [some 10, some 20, some 30],
                          offsets := [0, 1, 2, 3] } : MapColumn Nat Nat)
       { keys := [some 7, some 8], values := [some 9, some 8],
         offsets := [0, 2] } [1]) =
       [[(some 1, some 10)], [(some 7, some 9), (some 8, some 8)],
        [(some 3, some 30)]]) := by
  refine ⟨needResize_false_iff c src indexes, ?_, by decide, by decide⟩
  exact update_rows_rows c src indexes hc hs hbnd
    (fun i1 i2 h12 h2 => hsorted i2 h2 i1 h12)

/-- Witness for C4 at the concrete fast-path example. -/
theorem update_rows_fast_iff_and_paths_agree_witness :
    (WellFormed ({ keys := [some 1, some 2, some 3],
                   values := [some 10, some 20, some 30],
                   offsets := [0, 1, 2, 3] } : MapColumn Nat Nat) ∧
     WellFormed ({ keys := [some 7], values := [some 9],
                   offsets := [0, 1] } : MapColumn Nat Nat)) ∧
    rows (update_rows ({ keys := [some 1, some 2, some 3],
                         values := [some 10, some 20, some 30],
                         offsets := [0, 1, 2, 3] } : MapColumn Nat Nat)
        { keys := [some 7], values := [some 9], offsets := [0, 1] } [1]) =
      replacedRows ({ keys := [some 1, some 2, some 3],
                      values := [some 10, some 20, some 30],
                      offsets := [0, 1, 2, 3] } : MapColumn Nat Nat)
        { keys := [some 7], values := [some 9], offsets := [0, 1] } [1] :=
  ⟨⟨by decide, by decide⟩,
   (update_rows_fast_iff_and_paths_agree
      ({ keys := [some 1, some 2, some 3],
         values := [some 10, some 20, some 30],
         offsets := [0, 1, 2, 3] } : MapColumn Nat Nat)
      { keys := [some 7], values := [some 9], offsets := [0, 1] } [1]
      (by decide) (by decide) (by decide) (by decide)).2.1⟩

lemma WellFormed.pad_const_pres {c : MapColumn α β} (h : WellFormed c)
    (count : Nat) :
    WellFormed { c with
      offsets := c.offsets ++ List.replicate count (c.offsets.getLastD 0) } := by
  have hlen := h.length_pos
  have hne : c.offsets ++ List.replicate count (c.offsets.getLastD 0) ≠ [] := by
    apply List.length_pos.mp
    rw [List.length_append]
    omega
  have hlow : ∀ x < c.offsets.length,
      (c.offsets ++ List.replicate count (c.offsets.getLastD 0)).getD x 0 =
        c.offsets.getD x 0 := by
    intro x hx
    rw [List.getD_append _ _ _ _ hx]
  have hhigh : ∀ x, c.offsets.length ≤ x → x < c.offsets.length + count →
      (c.offsets ++ List.replicate count (c.offsets.getLastD 0)).getD x 0 =
        c.offsets.getLastD 0 := by
    intro x hx1 hx2
    rw [List.getD_append_right _ _ _ _ hx1, List.getD_eq_getElem?_getD,
        List.getElem?_replicate, if_pos (by omega)]
    rfl
  have hlast : c.offsets.getD (c.offsets.length - 1) 0 = c.offsets.getLastD 0 :=
    (getLastD_eq_getD _ _ h.1).symm
  have hback : (c.offsets ++ List.replicate count (c.offsets.getLastD 0)).getLastD 0 =
      c.offsets.getLastD 0 := by
    rw [getLastD_eq_getD _ _ hne, List.length_append, List.length_replicate]
    rcases Nat.eq_zero_or_pos count with rfl | hcpos
    · rw [hlow (c.offsets.length + 0 - 1) (by omega)]
      rw [show c.offsets.length + 0 - 1 = c.offsets.length - 1 from by omega]
      exact hlast
    · exact hhigh (c.offsets.length + count - 1) (by omega) (by omega)
  refine ⟨hne, ?_, ?_, ?_, ?_⟩
  · show (c.offsets ++ List.replicate count (c.offsets.getLastD 0)).getD 0 0 = 0
    rw [hlow 0 (by omega)]
    exact h.2.1
  · intro a ha
    show (c.offsets ++ List.replicate count (c.offsets.getLastD 0)).getD a 0 ≤
      (c.offsets ++ List.replicate count (c.offsets.getLastD 0)).getD (a + 1) 0
    have ha' : a < (c.offsets ++ List.replicate count
        (c.offsets.getLastD 0)).length - 1 := ha
    rw [List.length_append, List.length_replicate] at ha'
    rcases Nat.lt_or_ge (a + 1) c.offsets.length with hcase | hcase
    · rw [hlow a (by omega), hlow (a + 1) hcase]
      exact h.2.2.1 a (by omega)
    · rcases Nat.lt_or_ge a c.offsets.length with hcase2 | hcase2
      · rw [hlow a hcase2, hhigh (a + 1) hcase (by omega)]
        have : c.offsets.getD a 0 ≤ c.offsets.getD (c.offsets.length - 1) 0 :=
          getD_mono_of_adj h.2.2.1 (by omega) (by omega)
        omega
      · rw [hhigh a hcase2 (by omega), hhigh (a + 1) hcase (by omega)]
  · show (c.offsets ++ List.replicate count (c.offsets.getLastD 0)).getLastD 0 =
      c.keys.length
    rw [hback]
    exact h.2.2.2.1
  · show (c.offsets ++ List.replicate count (c.offsets.getLastD 0)).getLastD 0 =
      c.values.length
    rw [hback]
    exact h.2.2.2.2

lemma childResize_length {γ : Type} (l : List (Option γ)) (n : Nat) :
    (childResize l n).length = n := by
  unfold childResize
  rw [List.length_append, List.length_take, List.length_replicate]
  omega

lemma WellFormed.resize_pres {c : MapColumn α β} (h : WellFormed c) (n : Nat) :
    WellFormed (resize c n) := by
  have hlen := h.length_pos
  have hlentot : (c.offsets.take (n + 1) ++
      List.replicate ((n + 1) - c.offsets.length)
        (c.offsets.getLastD 0)).length = n + 1 := by
    rw [List.length_append, List.length_take, List.length_replicate]
    omega
  have hne : c.offsets.take (n + 1) ++
      List.replicate ((n + 1) - c.offsets.length) (c.offsets.getLastD 0) ≠ [] := by
    apply List.length_pos.mp
    rw [hlentot]
    omega
  have hlow : ∀ x, x < n + 1 → x < c.offsets.length →
      (c.offsets.take (n + 1) ++
        List.replicate ((n + 1) - c.offsets.length)
          (c.offsets.getLastD 0)).getD x 0 = c.offsets.getD x 0 := by
    intro x hx1 hx2
    rw [List.getD_append _ _ _ _ (by rw [List.length_take]; omega)]
    rw [List.getD_eq_getElem?_getD, List.getElem?_take, if_pos hx1,
        ← List.getD_eq_getElem?_getD]
  have hhigh : ∀ x, c.offsets.length ≤ x → x < n + 1 →
      (c.offsets.take (n + 1) ++
        List.replicate ((n + 1) - c.offsets.length)
          (c.offsets.getLastD 0)).getD x 0 = c.offsets.getLastD 0 := by
    intro x hx1 hx2
    rw [List.getD_append_right _ _ _ _ (by rw [List.length_take]; omega),
        List.length_take, List.getD_eq_getElem?_getD, List.getElem?_replicate,
        if_pos (by omega)]
    rfl
  have hlast : c.offsets.getD (c.offsets.length - 1) 0 = c.offsets.getLastD 0 :=
    (getLastD_eq_getD _ _ h.1).symm
  refine ⟨hne, ?_, ?_, ?_, ?_⟩
  · show (c.offsets.take (n + 1) ++
      List.replicate ((n + 1) - c.offsets.length)
        (c.offsets.getLastD 0)).getD 0 0 = 0
    rw [hlow 0 (by omega) (by omega)]
    exact h.2.1
  · intro a ha
    show (c.offsets.take (n + 1) ++
        List.replicate ((n + 1) - c.offsets.length)
          (c.offsets.getLastD 0)).getD a 0 ≤
      (c.offsets.take (n + 1) ++
        List.replicate ((n + 1) - c.offsets.length)
          (c.offsets.getLastD 0)).getD (a + 1) 0
    have ha' : a < n + 1 - 1 := by
      have ha2 : a < (c.offsets.take (n + 1) ++
          List.replicate ((n + 1) - c.offsets.length)
            (c.offsets.getLastD 0)).length - 1 := ha
      rw [hlentot] at ha2
      exact ha2
    rcases Nat.lt_or_ge (a + 1) c.offsets.length with hcase | hcase
    · rw [hlow a (by omega) (by omega), hlow (a + 1) (by omega) hcase]
      exact h.2.2.1 a (by omega)
    · rcases Nat.lt_or_ge a c.offsets.length with hcase2 | hcase2
      · rw [hlow a (by omega) hcase2, hhigh (a + 1) hcase (by omega)]
        have : c.offsets.getD a 0 ≤ c.offsets.getD (c.offsets.length - 1) 0 :=
          getD_mono_of_adj h.2.2.1 (by omega) (by omega)
        omega
      · rw [hhigh a hcase2 (by omega), hhigh (a + 1) hcase (by omega)]
  · show (c.offsets.take (n + 1) ++
      List.replicate ((n + 1) - c.offsets.length)
        (c.offsets.getLastD 0)).getLastD 0 =
      (childResize c.keys ((c.offsets.take (n + 1) ++
        List.replicate ((n + 1) - c.offsets.length)
          (c.offsets.getLastD 0)).getLastD 0)).length
    rw [childResize_length]
  · show (c.offsets.take (n + 1) ++
      List.replicate ((n + 1) - c.offsets.length)
        (c.offsets.getLastD 0)).getLastD 0 =
      (childResize c.values ((c.offsets.take (n + 1) ++
        List.replicate ((n + 1) - c.offsets.length)
          (c.offsets.getLastD 0)).getLastD 0)).length
    rw [childResize_length]

lemma update_rows_wf (c src : MapColumn α β) (indexes : List Nat)
    (hc : WellFormed c) (hs : WellFormed src)
    (hbnd : ∀ i < src.size, indexes.getD i 0 < c.size)
    (hinj : ∀ i1 i2, i1 < i2 → i2 < src.size →
      indexes.getD i1 0 < indexes.getD i2 0) :
    WellFormed (update_rows c src indexes) := by
  by_cases hnr : needResize c src indexes = false
  · have hfast : WellFormed { c with
        keys := childUpdateRows c.keys src.keys (elementIdxes c src indexes)
        values := childUpdateRows c.values src.values
          (elementIdxes c src indexes) } := by
      obtain ⟨h1, h2, h3, h4, h5⟩ := hc
      refine ⟨h1, h2, h3, ?_, ?_⟩
      · show c.offsets.getLastD 0 = (childUpdateRows c.keys src.keys
          (elementIdxes c src indexes)).length
        rw [childUpdateRows_length]
        exact h4
      · show c.offsets.getLastD 0 = (childUpdateRows c.values src.values
          (elementIdxes c src indexes)).length
        rw [childUpdateRows_length]
        exact h5
    unfold update_rows
    rw [if_pos hnr]
    exact hfast
  · obtain ⟨hwf, hst2, hle, hrows⟩ :=
      urFold_inv c src indexes hc hs hbnd hinj src.size (Nat.le_refl _)
    have hfin : WellFormed (if 0 < c.size - (urFold c src indexes src.size).2 then
        append (urFold c src indexes src.size).1 c
          (urFold c src indexes src.size).2
          (c.size - (urFold c src indexes src.size).2)
        else (urFold c src indexes src.size).1) := by
      by_cases hrem : 0 < c.size - (urFold c src indexes src.size).2
      · rw [if_pos hrem]
        exact hwf.append_pres hc (by omega)
      · rw [if_neg hrem]
        exact hwf
    unfold update_rows
    rw [if_neg hnr]
    exact hfin

lemma filter_range_wf (c : MapColumn α β) (f : List Bool) (fr stop : Nat)
    (hc : WellFormed c) (hfr : fr ≤ stop) (hstop : stop = c.size) :
    WellFormed (filter_range c f fr stop).1 := by
  subst hstop
  exact (filter_range_rows c f fr hc hfr).2.1

lemma applyOp_wf (c : MapColumn α β) (op : MapOp α β) (hc : WellFormed c)
    (hpre : opPre c op) : WellFormed (applyOp c op) := by
  cases op with
  | append src offset count => exact hc.append_pres hpre.1 hpre.2
  | append_datum m => exact hc.append_datum_pres m
  | append_nulls count =>
    have he : (append_nulls c count).1 = { c with
        offsets := c.offsets ++ List.replicate count (c.offsets.getLastD 0) } := by
      show ({ c with offsets := appendBackLoop c.offsets count } : MapColumn α β) = _
      rw [appendBackLoop_eq]
    show WellFormed (append_nulls c count).1
    rw [he]
    exact hc.pad_const_pres count
  | append_default count => exact hc.pad_const_pres count
  | resize n => exact hc.resize_pres n
  | filter_range f fr stop => exact filter_range_wf c f fr stop hc hpre.1 hpre.2
  | update_rows src indexes =>
    exact update_rows_wf c src indexes hc hpre.1 hpre.2.2
      (fun i1 i2 h12 h2 => hpre.2.1 i2 h2 i1 h12)

lemma applySeq_wf : ∀ (ops : List (MapOp α β)) (c : MapColumn α β),
    WellFormed c → validSeq c ops → WellFormed (applySeq c ops) := by
  intro ops
  induction ops with
  | nil =>
    intro c hc _
    exact hc
  | cons op rest ih =>
    intro c hc hv
    exact ih (applyOp c op) (applyOp_wf c op hc hv.1) hv.2

/-- C1: starting from a well-formed map column, any sequence of the
mutating operations append, append_datum, append_nulls, append_default,
resize, filter_range and update_rows whose preconditions hold leaves the
column satisfying the structural invariants: well-formedness, and
explicitly offsets[0] = 0, offsets non-decreasing, len(offsets) equal to
the row count plus one, and offsets.back() equal to both children's
element counts. -/
theorem invariants_preserved_by_valid_op_sequences (c : MapColumn α β)
    (ops : List (MapOp α β)) (hc : WellFormed c) (hv : validSeq c ops) :
    WellFormed (applySeq c ops) ∧
    (applySeq c ops).offsets.getD 0 0 = 0 ∧
    (∀ i < (applySeq c ops).offsets.length - 1,
      (applySeq c ops).offsets.getD i 0 ≤
        (applySeq c ops).offsets.getD (i + 1) 0) ∧
    (applySeq c ops).offsets.length = (applySeq c ops).size + 1 ∧
    (applySeq c ops).backOff = (applySeq c ops).keys.length ∧
    (applySeq c ops).backOff = (applySeq c ops).values.length := by
  have hwf := applySeq_wf ops c hc hv
  refine ⟨hwf, hwf.2.1, hwf.2.2.1, ?_, hwf.2.2.2.1, hwf.2.2.2.2⟩
  have := hwf.length_pos
  unfold size
  omega

/-- Witness for C1: a concrete sequence exercising every operation kind. -/
theorem invariants_preserved_by_valid_op_sequences_witness :
    (WellFormed ({ keys := [some 1], values := [some 2], offsets := [0, 1] } :
        MapColumn Nat Nat) ∧
     validSeq ({ keys := [some 1], values := [some 2], offsets := [0, 1] } :
        MapColumn Nat Nat)
       [MapOp.append { keys := [some 1], values := [some 2], offsets := [0, 1] } 0 1,
        MapOp.append_datum [(some 5, some 6)],
        MapOp.append_nulls 1, MapOp.append_default 1,
        MapOp.filter_range [true, false, true, true, false] 0 5,
        MapOp.resize 2,
        MapOp.update_rows { keys := [some 9], values := [some 9], offsets := [0, 1] }
          [0]]) ∧
    WellFormed (applySeq ({ keys := [some 1], values := [some 2], offsets := [0, 1] } :
        MapColumn Nat Nat)
      [MapOp.append { keys := [some 1], values := [some 2], offsets := [0, 1] } 0 1,
       MapOp.append_datum [(some 5, some 6)],
       MapOp.append_nulls 1, MapOp.append_default 1,
       MapOp.filter_range [true, false, true, true, false] 0 5,
       MapOp.resize 2,
       MapOp.update_rows { keys := [some 9], values := [some 9], offsets := [0, 1] }
         [0]]) :=
  ⟨⟨by decide, by decide⟩,
   (invariants_preserved_by_valid_op_sequences
      ({ keys := [some 1], values := [some 2], offsets := [0, 1] } :
        MapColumn Nat Nat)
      [MapOp.append { keys := [some 1], values := [some 2], offsets := [0, 1] } 0 1,
       MapOp.append_datum [(some 5, some 6)],
       MapOp.append_nulls 1, MapOp.append_default 1,
       MapOp.filter_range [true, false, true, true, false] 0 5,
       MapOp.resize 2,
       MapOp.update_rows { keys := [some 9], values := [some 9], offsets := [0, 1] }
         [0]]
      (by decide) (by decide)).1⟩

end MapColumn

end StarRocksMap
